import Mathlib

/-!
Verification of the typeattack submission-integrity and leaderboard scripts.

This file gives a shallow embedding, in Lean, of the Python code in
`scripts/validate_session.py`, `scripts/generate_static.py` and
`scripts/moderate_scores.py`, and proves (or refutes) the specified
properties of the canonicalizer, validator, merge/rank engine, moderation
engine and atomic-write primitive.

Modelling conventions:
* JSON values are modelled by the inductive type `JVal`; Python dicts are
  association lists with unique keys (`dGet` is `dict.get`).  JSON numbers
  are modelled as integers.
* Python exceptions are modelled with `Except String`; the string names the
  exception class raised by CPython at that point.
* Python `sorted`/`list.sort` is a stable sort; it is modelled with
  `List.insertionSort` (also stable), raising `TypeError` when the list
  contains an incomparable pair, as CPython does.
-/

/-- A JSON-like value, the domain of the Python dict/list trees the scripts
operate on. Numbers are modelled as integers. -/
inductive JVal where
  | null : JVal
  | bool : Bool → JVal
  | num : Int → JVal
  | str : String → JVal
  | arr : List JVal → JVal
  | obj : List (String × JVal) → JVal
  deriving Inhabited

namespace JVal

/-- Python `dict.get(k)`: the value stored at the first matching key, if any. -/
def dGet (fs : List (String × JVal)) (k : String) : Option JVal :=
  (fs.find? (fun p => p.1 == k)).map (fun p => p.2)

/-- Python `dict[k] = v`: replace the value at `k` in place, or append the
binding if the key is absent (dicts keep insertion order). -/
def dSet (fs : List (String × JVal)) (k : String) (v : JVal) : List (String × JVal) :=
  if (fs.find? (fun p => p.1 == k)).isSome then
    fs.map (fun p => if p.1 == k then (k, v) else p)
  else
    fs ++ [(k, v)]

/-- Python truthiness of a JSON value (`bool(v)`). -/
def truthy : JVal → Bool
  | .null => false
  | .bool b => b
  | .num n => n != 0
  | .str s => s ≠ ""
  | .arr xs => !xs.isEmpty
  | .obj fs => !fs.isEmpty

/-- Python `bool` is a subtype of `int`: `True` is the integer 1. -/
def boolInt (b : Bool) : Int := if b then 1 else 0

mutual

/-- Python `==` on JSON values: numbers and booleans compare by numeric
value, containers compare elementwise; values of different classes are
unequal (never an error). -/
def pyEq : JVal → JVal → Bool
  | .null, .null => true
  | .bool a, .bool b => a == b
  | .num a, .num b => a == b
  | .bool a, .num b => boolInt a == b
  | .num a, .bool b => a == boolInt b
  | .str a, .str b => a == b
  | .arr a, .arr b => pyEqList a b
  | .obj a, .obj b => pyEqObj a b && pyEqObjRev b a
  | _, _ => false

/-- Elementwise `==` of two Python lists. -/
def pyEqList : List JVal → List JVal → Bool
  | [], [] => true
  | x :: xs, y :: ys => pyEq x y && pyEqList xs ys
  | _, _ => false

/-- One inclusion of Python dict equality: every binding of the first dict
is matched in the second. -/
def pyEqObj : List (String × JVal) → List (String × JVal) → Bool
  | [], _ => true
  | (k, v) :: rest, other =>
      (match (other.find? (fun p => p.1 == k)).map (fun p => p.2) with
       | some w => pyEq v w
       | none => false) && pyEqObj rest other

/-- The reverse inclusion of Python dict equality (key containment only;
values were already compared by the forward pass). -/
def pyEqObjRev : List (String × JVal) → List (String × JVal) → Bool
  | [], _ => true
  | (k, _) :: rest, other =>
      (other.find? (fun p => p.1 == k)).isSome && pyEqObjRev rest other

end

/-- Lexicographic three-way comparison of character sequences by code
point: the comparison CPython uses on `str` and `json.dumps` uses on
keys. -/
def charsCmp : List Char → List Char → Ordering
  | [], [] => .eq
  | [], _ :: _ => .lt
  | _ :: _, [] => .gt
  | c :: cs, d :: ds =>
      if c < d then .lt else if d < c then .gt else charsCmp cs ds

mutual

/-- Python `<`-comparison on JSON values as a three-way comparison.
`none` means the pair is incomparable and CPython raises `TypeError`:
values of different classes (except bool/number), `None`, and dicts are
not orderable. -/
def pyCmp : JVal → JVal → Option Ordering
  | .num a, .num b => some (compare a b)
  | .bool a, .bool b => some (compare (boolInt a) (boolInt b))
  | .bool a, .num b => some (compare (boolInt a) b)
  | .num a, .bool b => some (compare a (boolInt b))
  | .str a, .str b => some (charsCmp a.data b.data)
  | .arr a, .arr b => pyCmpList a b
  | _, _ => none

/-- Python list comparison: skip equal prefixes (using `==`, which never
raises here), order by the first unequal pair, fall back to length. -/
def pyCmpList : List JVal → List JVal → Option Ordering
  | [], [] => some .eq
  | [], _ :: _ => some .lt
  | _ :: _, [] => some .gt
  | x :: xs, y :: ys => if pyEq x y then pyCmpList xs ys else pyCmp x y

end

/-- The order `sorted` sorts by: `a` precedes `b` unless `a > b`.  On
incomparable pairs this is vacuously true both ways; `pySorted` only
applies it to lists whose pairs are all comparable. -/
def pyLe (a b : JVal) : Prop := pyCmp a b ≠ some Ordering.gt

instance : DecidableRel pyLe := fun a b => by unfold pyLe; infer_instance

/-- Every pair drawn from the list is comparable, so CPython `sorted`
completes without a `TypeError`. -/
def allComparable : List JVal → Bool
  | [] => true
  | x :: rest => rest.all (fun y => (pyCmp x y).isSome) && allComparable rest

/-- CPython `sorted`: a stable sort of the list, raising `TypeError` when
it meets an incomparable pair. -/
def pySorted (xs : List JVal) : Except String (List JVal) :=
  if allComparable xs then .ok (xs.insertionSort pyLe) else .error "TypeError"

end JVal

/-- Hexadecimal digit (lowercase), as used by `\uXXXX` escapes and digests. -/
def hexDigit (n : Nat) : Char :=
  if n < 10 then Char.ofNat (48 + n) else Char.ofNat (87 + n)

/-- Four lowercase hex digits of a 16-bit value, most significant first. -/
def hex4 (n : Nat) : String :=
  String.mk [hexDigit ((n / 4096) % 16), hexDigit ((n / 256) % 16),
             hexDigit ((n / 16) % 16), hexDigit (n % 16)]

/-- The escape `json.dumps` (with its default `ensure_ascii=True`) applies
to one character of a string. -/
def jsonEscapeChar (c : Char) : String :=
  if c = '"' then "\\\""
  else if c = '\\' then "\\\\"
  else if c = '\n' then "\\n"
  else if c = '\t' then "\\t"
  else if c = '\r' then "\\r"
  else if c = '\x08' then "\\b"
  else if c = '\x0c' then "\\f"
  else if c.toNat < 32 then "\\u" ++ hex4 c.toNat
  else if c.toNat < 127 then String.mk [c]
  else if c.toNat < 65536 then "\\u" ++ hex4 c.toNat
  else
    "\\u" ++ hex4 (55296 + (c.toNat - 65536) / 1024) ++
    "\\u" ++ hex4 (56320 + (c.toNat - 65536) % 1024)

/-- A JSON string literal: quotes around the escaped characters. -/
def jsonQuote (s : String) : String :=
  "\"" ++ String.join (s.data.map jsonEscapeChar) ++ "\""

namespace JVal

/-- Join rendered fragments with commas. -/
def joinComma : List String → String
  | [] => ""
  | [x] => x
  | x :: y :: rest => x ++ "," ++ joinComma (y :: rest)

mutual

/-- Stable serialization of a JSON value: `json.dumps(v,
separators=(',', ':'), sort_keys=True)` — keys sorted, no whitespace. -/
def serialize : JVal → String
  | .null => "null"
  | .bool b => cond b "true" "false"
  | .num n => toString n
  | .str s => jsonQuote s
  | .arr xs => "[" ++ serializeList xs ++ "]"
  | .obj fs =>
      "\x7b" ++
        joinComma (((serializeFields fs).insertionSort
          (fun p q => charsCmp p.1.data q.1.data ≠ Ordering.gt)).map
            (fun p => p.2)) ++
      "\x7d"

/-- Comma-separated serializations of the elements of a JSON array. -/
def serializeList : List JVal → String
  | [] => ""
  | [x] => serialize x
  | x :: y :: rest => serialize x ++ "," ++ serializeList (y :: rest)

/-- The rendered `"key":value` fragment of every field, paired with its key
so the fragments can then be put in sorted key order. -/
def serializeFields : List (String × JVal) → List (String × String)
  | [] => []
  | (k, v) :: rest => (k, jsonQuote k ++ ":" ++ serialize v) :: serializeFields rest

end

end JVal

namespace SHA256

/-- The 2^32 modulus of SHA-256 word arithmetic. -/
def M32 : Nat := 4294967296

/-- Right rotation of a 32-bit word by `n` bits. -/
def rotr (n x : Nat) : Nat := ((x >>> n) ||| (x <<< (32 - n))) % M32

/-- Bitwise complement of a 32-bit word. -/
def compl32 (x : Nat) : Nat := x ^^^ (M32 - 1)

/-- The 64 round constants of SHA-256 (the fractional parts of the cube
roots of the first 64 primes, as 32-bit words, written in decimal). -/
def roundK : List Nat :=
  [1116352408, 1899447441, 3049323471, 3921009573,
   961987163, 1508970993, 2453635748, 2870763221,
   3624381080, 310598401, 607225278, 1426881987,
   1925078388, 2162078206, 2614888103, 3248222580,
   3835390401, 4022224774, 264347078, 604807628,
   770255983, 1249150122, 1555081692, 1996064986,
   2554220882, 2821834349, 2952996808, 3210313671,
   3336571891, 3584528711, 113926993, 338241895,
   666307205, 773529912, 1294757372, 1396182291,
   1695183700, 1986661051, 2177026350, 2456956037,
   2730485921, 2820302411, 3259730800, 3345764771,
   3516065817, 3600352804, 4094571909, 275423344,
   430227734, 506948616, 659060556, 883997877,
   958139571, 1322822218, 1537002063, 1747873779,
   1955562222, 2024104815, 2227730452, 2361852424,
   2428436474, 2756734187, 3204031479, 3329325298]

/-- The initial hash value of SHA-256, written in decimal. -/
def initH : List Nat :=
  [1779033703, 3144134277, 1013904242, 2773480762,
   1359893119, 2600822924, 528734635, 1541459225]
/-- UTF-8 encoding of a single code point. -/
def utf8Char (c : Nat) : List Nat :=
  if c < 0x80 then [c]
  else if c < 0x800 then
    [0xc0 ||| (c >>> 6), 0x80 ||| (c &&& 0x3f)]
  else if c < 0x10000 then
    [0xe0 ||| (c >>> 12), 0x80 ||| ((c >>> 6) &&& 0x3f), 0x80 ||| (c &&& 0x3f)]
  else
    [0xf0 ||| (c >>> 18), 0x80 ||| ((c >>> 12) &&& 0x3f),
     0x80 ||| ((c >>> 6) &&& 0x3f), 0x80 ||| (c &&& 0x3f)]

/-- UTF-8 bytes of a string (`s.encode('utf-8')`). -/
def utf8Bytes (s : String) : List Nat :=
  s.data.foldr (fun c acc => utf8Char c.toNat ++ acc) []

/-- The 8-byte big-endian encoding of the message bit length. -/
def lenBytes (n : Nat) : List Nat :=
  [(n >>> 56) % 256, (n >>> 48) % 256, (n >>> 40) % 256, (n >>> 32) % 256,
   (n >>> 24) % 256, (n >>> 16) % 256, (n >>> 8) % 256, n % 256]

/-- SHA-256 padding: append `0x80`, zeros to 56 mod 64, then the bit length. -/
def pad (msg : List Nat) : List Nat :=
  msg ++ [0x80] ++ List.replicate ((64 - ((msg.length + 9) % 64)) % 64) 0 ++
    lenBytes (8 * msg.length)

/-- Big-endian 32-bit words of a byte stream. -/
def toWords : List Nat → List Nat
  | b0 :: b1 :: b2 :: b3 :: rest =>
      ((b0 <<< 24) ||| (b1 <<< 16) ||| (b2 <<< 8) ||| b3) :: toWords rest
  | _ => []

/-- The small sigma-0 function of the message schedule. -/
def smallS0 (x : Nat) : Nat := (rotr 7 x) ^^^ (rotr 18 x) ^^^ (x >>> 3)

/-- The small sigma-1 function of the message schedule. -/
def smallS1 (x : Nat) : Nat := (rotr 17 x) ^^^ (rotr 19 x) ^^^ (x >>> 10)

/-- Extend the 16 block words to the 64-entry message schedule. -/
def extendW (w : List Nat) : Nat → List Nat
  | 0 => w
  | fuel + 1 =>
      let n := w.length
      let wn := (smallS1 (w.getD (n - 2) 0) + w.getD (n - 7) 0 +
                 smallS0 (w.getD (n - 15) 0) + w.getD (n - 16) 0) % M32
      extendW (w ++ [wn]) fuel

/-- One round of the SHA-256 compression loop on state `[a,b,c,d,e,f,g,h]`. -/
def round (st : List Nat) (kw : Nat × Nat) : List Nat :=
  match st with
  | [a, b, c, d, e, f, g, h] =>
      let s1 := (rotr 6 e) ^^^ (rotr 11 e) ^^^ (rotr 25 e)
      let ch := (e &&& f) ^^^ ((compl32 e) &&& g)
      let t1 := (h + s1 + ch + kw.1 + kw.2) % M32
      let s0 := (rotr 2 a) ^^^ (rotr 13 a) ^^^ (rotr 22 a)
      let mj := (a &&& b) ^^^ (a &&& c) ^^^ (b &&& c)
      let t2 := (s0 + mj) % M32
      [(t1 + t2) % M32, a, b, c, (d + t1) % M32, e, f, g]
  | _ => st

/-- Compress one 16-word block into the running hash value. -/
def compress (hv block : List Nat) : List Nat :=
  let w := extendW block 48
  let st := (roundK.zip w).foldl round hv
  (hv.zip st).map (fun p => (p.1 + p.2) % M32)

/-- Fold the compression over all 16-word blocks of the word stream. -/
def processBlocks : Nat → List Nat → List Nat → List Nat
  | 0, _, hv => hv
  | fuel + 1, ws, hv => processBlocks fuel (ws.drop 16) (compress hv (ws.take 16))

/-- Eight lowercase hex digits of a 32-bit word. -/
def hex8 (w : Nat) : String := hex4 ((w >>> 16) % 65536) ++ hex4 (w % 65536)

/-- SHA-256 digest of a string as lowercase hex
(`hashlib.sha256(s.encode('utf-8')).hexdigest()`). -/
def sha256hex (s : String) : String :=
  let ws := toWords (pad (utf8Bytes s))
  String.join ((processBlocks (ws.length / 16) ws initH).map hex8)

end SHA256

namespace ValidateSession

open JVal

/-- The word-text extraction comprehension of `extract_deterministic_data`:
`[w.get('text', '') for w in words if w.get('text')]`.  A non-dict element
raises `AttributeError` (it has no `.get`); otherwise the text is kept
exactly when it is truthy. -/
def wordTexts : List JVal → Except String (List JVal)
  | [] => .ok []
  | .obj wf :: rest =>
      let t := (dGet wf "text").getD .null
      match wordTexts rest with
      | .ok ts => .ok (if truthy t then t :: ts else ts)
      | .error e => .error e
  | _ :: _ => .error "AttributeError"

/-- The keystroke projection of `extract_deterministic_data`: each element
is projected to its `key`/`timestamp`/`wordIndex` fields.  A non-dict
element raises `AttributeError`. -/
def ksProj : List JVal → Except String (List JVal)
  | [] => .ok []
  | .obj kf :: rest =>
      match ksProj rest with
      | .ok ks =>
          .ok (.obj [("key", (dGet kf "key").getD .null),
                     ("timestamp", (dGet kf "timestamp").getD .null),
                     ("wordIndex", (dGet kf "wordIndex").getD .null)] :: ks)
      | .error e => .error e
  | _ :: _ => .error "AttributeError"

/-- Model of `extract_deterministic_data(session_data)`: project the
session to `seed`, `stage`, the sorted truthy word texts and the keystroke
field triples.  A missing or non-list `words`/`keystrokes` degrades to the
empty list; a non-dict input, a non-dict list element, or an unsortable
text list raises. -/
def extract_deterministic_data (sd : JVal) : Except String JVal :=
  match sd with
  | .obj fs =>
      let wordsRes : Except String (List JVal) :=
        match (dGet fs "words").getD (.arr []) with
        | .arr ws =>
            match wordTexts ws with
            | .ok ts => pySorted ts
            | .error e => .error e
        | _ => .ok []
      match wordsRes with
      | .error e => .error e
      | .ok sortedTexts =>
          match (dGet fs "keystrokes").getD (.arr []) with
          | .arr ks =>
              match ksProj ks with
              | .ok kd =>
                  .ok (.obj [("seed", (dGet fs "seed").getD .null),
                             ("stage", (dGet fs "stage").getD .null),
                             ("words", .arr sortedTexts),
                             ("keystrokes", .arr kd)])
              | .error e => .error e
          | _ =>
              .ok (.obj [("seed", (dGet fs "seed").getD .null),
                         ("stage", (dGet fs "stage").getD .null),
                         ("words", .arr sortedTexts),
                         ("keystrokes", .arr [])])
  | _ => .error "AttributeError"

/-- Model of `calculate_hash(session_data)`: the SHA-256 hex digest of the
stable JSON serialization of the deterministic subset. -/
def calculate_hash (sd : JVal) : Except String String :=
  match extract_deterministic_data sd with
  | .ok d => .ok (SHA256.sha256hex (serialize d))
  | .error e => .error e

/-- ASCII lowercasing of one character, as Python `str.lower()` does on
ASCII data. -/
def lowerChar (c : Char) : Char :=
  if 'A' ≤ c && c ≤ 'Z' then Char.ofNat (c.toNat + 32) else c

/-- Model of Python `str.lower()` on ASCII data. -/
def pyLower (s : String) : String := String.mk (s.data.map lowerChar)

/-- Model of `verify_hash(session_data, expected_hash)`: false for a falsy
or non-string claim, otherwise a case-insensitive comparison with the
recalculated digest; any exception is caught and yields false. -/
def verify_hash (sd : JVal) (expected : JVal) : Bool :=
  match expected with
  | .str e =>
      if e = "" then false
      else
        match calculate_hash sd with
        | .ok c => pyLower c == pyLower e
        | .error _ => false
  | _ => false

/-- Truthiness of an optional lookup result (`not d.get(k)` is true when
the key is absent or its value is falsy). -/
def truthyO : Option JVal → Bool
  | some v => truthy v
  | none => false

/-- Python `isinstance(v, (int, float))`; booleans are a subtype of int. -/
def numericJ : JVal → Bool
  | .num _ => true
  | .bool _ => true
  | _ => false

/-- Numeric value of a number-like JSON value. -/
def toNum : JVal → Int
  | .num n => n
  | .bool b => boolInt b
  | _ => 0

/-- The per-word loop of `validate_session_data`: a non-dict element or a
falsy `text` field records an indexed violation. -/
def wordErrs (i : Nat) : List JVal → List String
  | [] => []
  | .obj wf :: rest =>
      (if truthy ((dGet wf "text").getD .null) then []
       else ["Word " ++ toString i ++ " missing text field"]) ++ wordErrs (i + 1) rest
  | _ :: rest => ("Word " ++ toString i ++ " must be an object") :: wordErrs (i + 1) rest

/-- The per-keystroke loop of `validate_session_data`: a non-dict element,
falsy `key`, or missing (`is None`) `timestamp`/`wordIndex` records an
indexed violation. -/
def ksErrs (i : Nat) : List JVal → List String
  | [] => []
  | .obj kf :: rest =>
      (if truthy ((dGet kf "key").getD .null) then []
       else ["Keystroke " ++ toString i ++ " missing key field"]) ++
      (match (dGet kf "timestamp").getD .null with
       | .null => ["Keystroke " ++ toString i ++ " missing timestamp"]
       | _ => []) ++
      (match (dGet kf "wordIndex").getD .null with
       | .null => ["Keystroke " ++ toString i ++ " missing wordIndex"]
       | _ => []) ++ ksErrs (i + 1) rest
  | _ :: rest => ("Keystroke " ++ toString i ++ " must be an object") :: ksErrs (i + 1) rest

/-- Model of `validate_session_data(session_data)`: accumulate structural
violations and return `(is_valid, errors)`.  A non-dict input raises
(`'seed' in 5` is a `TypeError`; `5.get` would be an `AttributeError`), and
a truthy non-dict `stats` raises `AttributeError` at `stats.get('wpm')`. -/
def validate_session_data (sd : JVal) : Except String (Bool × List String) :=
  match sd with
  | .obj f =>
      let requiredErrs :=
        (["seed", "stage", "words", "keystrokes"].filterMap
          (fun k => if (dGet f k).isSome then none
                    else some ("Missing required field: " ++ k)))
      let seedErrs :=
        match (dGet f "seed").getD .null with
        | .null => []
        | v => if numericJ v then [] else ["Seed must be a number"]
      let stageErrs :=
        match (dGet f "stage").getD .null with
        | .null => []
        | v => if !numericJ v then ["Stage must be a number"]
               else if toNum v < 1 then ["Stage must be at least 1"] else []
      let wordsErrs :=
        match (dGet f "words").getD .null with
        | .null => []
        | .arr [] => ["Words array cannot be empty"]
        | .arr ws => wordErrs 0 ws
        | _ => ["Words must be an array"]
      let keystrokesErrs :=
        match (dGet f "keystrokes").getD .null with
        | .null => []
        | .arr [] => ["Keystrokes array cannot be empty"]
        | .arr ks => ksErrs 0 ks
        | _ => ["Keystrokes must be an array"]
      let statsRes : Except String (List String) :=
        match (dGet f "stats").getD .null with
        | .obj sf =>
            if (JVal.obj sf).truthy then
              .ok
                ((match (dGet sf "wpm").getD .null with
                  | .null => []
                  | w => if !numericJ w then ["WPM must be a number"]
                         else if toNum w < 0 || toNum w > 300 then
                           ["WPM " ++ toString (toNum w) ++
                            " is outside reasonable range (0-300)"]
                         else []) ++
                 (match (dGet sf "accuracy").getD .null with
                  | .null => []
                  | a => if !numericJ a then ["Accuracy must be a number"]
                         else if toNum a < 0 || toNum a > 100 then
                           ["Accuracy " ++ toString (toNum a) ++
                            " must be between 0 and 100"]
                         else []))
            else .ok []
        | v => if v.truthy then .error "AttributeError" else .ok []
      match statsRes with
      | .error e => .error e
      | .ok statsErrs =>
          let errors := requiredErrs ++ seedErrs ++ stageErrs ++ wordsErrs ++
            keystrokesErrs ++ statsErrs
          .ok (errors.isEmpty, errors)
  | .str _ => .error "AttributeError"
  | .arr _ => .error "AttributeError"
  | _ => .error "TypeError"

/-- A lowercase hexadecimal digit, as the UUID pattern accepts. -/
def isLowerHex (c : Char) : Bool := c.isDigit || ('a' ≤ c && c ≤ 'f')

/-- Consume exactly `n` lowercase hex digits. -/
def hexRun : Nat → List Char → Option (List Char)
  | 0, cs => some cs
  | _ + 1, [] => none
  | n + 1, c :: cs => if isLowerHex c then hexRun n cs else none

/-- Consume a literal dash. -/
def expectDash : List Char → Option (List Char)
  | '-' :: cs => some cs
  | _ => none

/-- The anchored UUIDv4 pattern of `is_valid_uuid`, on the lowercased
characters: `8-4-4-4-12` hex groups, version nibble `4`, variant nibble in
8/9/a/b.  `re.match` with a final `$` also accepts one trailing newline. -/
def uuidShape (cs : List Char) : Bool :=
  (do
    let cs ← hexRun 8 cs
    let cs ← expectDash cs
    let cs ← hexRun 4 cs
    let cs ← expectDash cs
    let cs ← (match cs with | '4' :: cs => some cs | _ => none)
    let cs ← hexRun 3 cs
    let cs ← expectDash cs
    let cs ← (match cs with
              | c :: cs => if c == '8' || c == '9' || c == 'a' || c == 'b'
                           then some cs else none
              | _ => none)
    let cs ← hexRun 3 cs
    let cs ← expectDash cs
    let cs ← hexRun 12 cs
    match cs with
    | [] => some ()
    | ['\n'] => some ()
    | _ => none).isSome

/-- Model of `is_valid_uuid(uuid_string)`: falsy or non-string values fail;
otherwise the lowercased string must match the UUIDv4 pattern. -/
def is_valid_uuid (v : JVal) : Bool :=
  match v with
  | .str s => if s = "" then false else uuidShape (s.data.map lowerChar)
  | _ => false

/-- Model of CPython `str.isupper()` restricted to ASCII data: at least one
cased character and no lowercase cased character.  Uncased characters
(digits, punctuation) are ignored, which is what the initials check
inherits. -/
def pyIsUpper (s : String) : Bool :=
  s.data.any (fun c => c.isAlpha) && s.data.all (fun c => !c.isAlpha || c.isUpper)

/-- Model of `validate_submission(submission)`: short-circuit on missing
`sessionData`/`sessionHash`, then accumulate structural violations, the
digest comparison (only when the structure is valid), and the
`userId`/`initials` identity checks. -/
def validate_submission (fs : List (String × JVal)) : Except String (Bool × List String) :=
  if !truthyO (dGet fs "sessionData") then .ok (false, ["Missing sessionData"])
  else if !truthyO (dGet fs "sessionHash") then .ok (false, ["Missing sessionHash"])
  else
    let sd := (dGet fs "sessionData").getD .null
    match validate_session_data sd with
    | .error e => .error e
    | .ok (isValid, dataErrors) =>
        let hashErrs :=
          if isValid && !verify_hash sd ((dGet fs "sessionHash").getD .null) then
            ["Session hash does not match session data"]
          else []
        let uidErrs :=
          if !truthyO (dGet fs "userId") then ["Missing userId"]
          else if !is_valid_uuid ((dGet fs "userId").getD .null) then
            ["Invalid userId format (must be UUIDv4)"]
          else []
        let initialsErrs :=
          if !truthyO (dGet fs "initials") then ["Missing initials"]
          else
            match (dGet fs "initials").getD .null with
            | .str s => if s.length == 3 && pyIsUpper s then []
                        else ["Initials must be exactly 3 uppercase letters"]
            | _ => ["Initials must be exactly 3 uppercase letters"]
        let errors := dataErrors ++ hashErrs ++ uidErrs ++ initialsErrs
        .ok (errors.isEmpty, errors)

end ValidateSession

namespace GenerateStatic

/-- A leaderboard score row, with exactly the fields `generate_leaderboard`
and `delete_score_by_hash` read or write.  Absent dict keys are `none`
(`score.get` defaults are applied at use sites, as in the source). -/
structure Score where
  sessionHash : Option String
  wpm : Option Int
  timestamp : Option Int
  rank : Option Nat
  deriving Repr, DecidableEq

/-- A feedback item, with exactly the fields `generate_feedback` reads. -/
structure Feedback where
  id : Option String
  feedbackId : Option String
  votes : Option Int
  timestamp : Option Int
  deriving Repr, DecidableEq

/-- Truthiness of an optional string (`if hash_val:` / `if item_id:`). -/
def truthyS : Option String → Bool
  | some s => s ≠ ""
  | none => false

/-- The dedup loop shared by `generate_leaderboard` and
`generate_feedback`: walk the concatenated list, keep an element whose key
is truthy and unseen, remember the key. -/
def dedupByKey (key : α → Option String) : List String → List α → List α
  | _, [] => []
  | seen, x :: rest =>
      match key x with
      | some k =>
          if k ≠ "" && !seen.contains k then x :: dedupByKey key (k :: seen) rest
          else dedupByKey key seen rest
      | none => dedupByKey key seen rest

/-- `score.get('wpm', 0)`. -/
def wpmD (s : Score) : Int := s.wpm.getD 0

/-- `score.get('timestamp', 0)`. -/
def tsD (s : Score) : Int := s.timestamp.getD 0

/-- The leaderboard sort order: the key `(-wpm, timestamp)`, so WPM
descending with ties broken by timestamp ascending. -/
def scoreLe (a b : Score) : Prop :=
  wpmD b < wpmD a ∨ (wpmD a = wpmD b ∧ tsD a ≤ tsD b)

instance : DecidableRel scoreLe := fun a b => by unfold scoreLe; infer_instance

instance : IsTotal Score scoreLe := by
  constructor; intro a b; unfold scoreLe; omega

instance : IsTrans Score scoreLe := by
  constructor; intro a b c; unfold scoreLe; omega

/-- The rank-assignment loop: `for i, score in enumerate(top_scores, 1):
score['rank'] = i`. -/
def assignRanks : Nat → List Score → List Score
  | _, [] => []
  | i, s :: rest => { s with rank := some i } :: assignRanks (i + 1) rest

/-- A generated leaderboard document. -/
structure Leaderboard where
  version : Nat
  generated : Int
  scores : List Score
  deriving Repr, DecidableEq

/-- Model of `generate_leaderboard(scores, existing_path, max_scores)`.
`existing` stands for the scores list loaded from the existing file,
`scores` for the incoming submissions and `now` for the generation
timestamp.  Concatenate existing-then-incoming, drop entries whose
`sessionHash` is falsy or already seen, stable-sort by `(-wpm, timestamp)`,
truncate to `max_scores` and assign ranks `1..n`. -/
def generate_leaderboard (existing scores : List Score) (max_scores : Nat)
    (now : Int) : Leaderboard :=
  let all_scores := existing ++ scores
  let unique_scores := dedupByKey Score.sessionHash [] all_scores
  let sorted_scores := unique_scores.insertionSort scoreLe
  let top_scores := sorted_scores.take max_scores
  { version := 1, generated := now, scores := assignRanks 1 top_scores }

/-- `item.get('feedbackId') or item.get('id')`: the feedback dedup key
prefers a truthy `feedbackId` and otherwise falls back to `id`. -/
def feedbackKey (i : Feedback) : Option String :=
  if truthyS i.feedbackId then i.feedbackId else i.id

/-- `f.get('votes', 0)`. -/
def votesD (i : Feedback) : Int := i.votes.getD 0

/-- `f.get('timestamp', 0)`. -/
def ftsD (i : Feedback) : Int := i.timestamp.getD 0

/-- The feedback sort order: the key `(-votes, -timestamp)`, so votes
descending with ties broken by timestamp descending. -/
def feedLe (a b : Feedback) : Prop :=
  votesD b < votesD a ∨ (votesD a = votesD b ∧ ftsD b ≤ ftsD a)

instance : DecidableRel feedLe := fun a b => by unfold feedLe; infer_instance

instance : IsTotal Feedback feedLe := by
  constructor; intro a b; unfold feedLe; omega

instance : IsTrans Feedback feedLe := by
  constructor; intro a b c; unfold feedLe; omega

/-- A generated feedback document. -/
structure FeedbackList where
  version : Nat
  generated : Int
  items : List Feedback
  deriving Repr, DecidableEq

/-- Model of `generate_feedback(feedback_items, existing_path)`:
concatenate existing-then-incoming, dedup by the feedback key keeping first
occurrences, sort by `(-votes, -timestamp)`; no cap and no rank field. -/
def generate_feedback (existing items : List Feedback) (now : Int) : FeedbackList :=
  let all_items := existing ++ items
  let unique_items := dedupByKey feedbackKey [] all_items
  { version := 1, generated := now, items := unique_items.insertionSort feedLe }

end GenerateStatic

namespace ModerateScores

open GenerateStatic

/-- Model of `delete_score_by_hash(leaderboard, session_hash)`: keep the
scores whose `sessionHash` differs from the argument, re-rank the
survivors from 1, and report whether the count dropped.  The pair is the
mutated scores list and the returned boolean. -/
def delete_score_by_hash (scores : List Score) (session_hash : String) :
    List Score × Bool :=
  let remaining := scores.filter (fun s => !(s.sessionHash == some session_hash))
  (assignRanks 1 remaining, decide (remaining.length < scores.length))

end ModerateScores

namespace AtomicWrite

/-- Which steps of `atomic_write_json` raise, modelling the exceptions the
wrapped calls can produce: directory creation, temp-file creation, JSON
serialization into the temp file, and the final rename. -/
structure Oracle where
  mkdirFails : Bool
  createFails : Bool
  dumpFails : Bool
  renameFails : Bool
  deriving Repr, DecidableEq

/-- Lookup in the modelled file system (a path-to-contents map). -/
def fsGet (fs : List (String × String)) (p : String) : Option String :=
  (fs.find? (fun q => q.1 == p)).map (fun q => q.2)

/-- Create or overwrite a file in the modelled file system. -/
def fsSet (fs : List (String × String)) (p v : String) : List (String × String) :=
  if (fs.find? (fun q => q.1 == p)).isSome then
    fs.map (fun q => if q.1 == p then (p, v) else q)
  else
    fs ++ [(p, v)]

/-- Remove a file from the modelled file system. -/
def fsRemove (fs : List (String × String)) (p : String) : List (String × String) :=
  fs.filter (fun q => !(q.1 == p))

/-- Model of `atomic_write_json(filepath, data)` over the file-system map
`fs`.  `tmpName` is the fresh name `NamedTemporaryFile` picks and `content`
the serialized payload.  Steps, as in the source: ensure the directory,
create the temp file (empty), `json.dump` into it, then rename onto the
target.  Any exception is caught; the handler removes the temp file only
when the local variable `tmp_name` was already assigned — and that
assignment happens only after `json.dump` returns, so a serialization
failure leaves the temp file behind. -/
def atomic_write_json (fs : List (String × String)) (filepath tmpName content : String)
    (orc : Oracle) : List (String × String) × Bool :=
  if orc.mkdirFails then (fs, false)
  else if orc.createFails then (fs, false)
  else
    let fs1 := fsSet fs tmpName ""
    if orc.dumpFails then (fs1, false)
    else
      let fs2 := fsSet fs1 tmpName content
      if orc.renameFails then (fsRemove fs2 tmpName, false)
      else (fsSet (fsRemove fs2 tmpName) filepath content, true)

end AtomicWrite


/-- Is the value a Python dict? -/
def JVal.isObj : JVal → Bool
  | .obj _ => true
  | _ => false

/-- Is the value a Python string? -/
def JVal.isStr : JVal → Bool
  | .str _ => true
  | _ => false

namespace ValidateSession

open JVal

/-- The word texts that the extraction comprehension keeps, ignoring
non-dict elements: the truthy `text` values of the object elements. -/
def keptTexts (ws : List JVal) : List JVal :=
  ws.filterMap (fun w =>
    match w with
    | .obj wf =>
        let t := (dGet wf "text").getD .null
        if truthy t then some t else none
    | _ => none)

/-- The `words` field of the session is benign for the canonicalizer: if it
is a list, all its elements are dicts and the kept texts are mutually
comparable, so neither the comprehension nor `sorted` raises. -/
def wordsOk (fs : List (String × JVal)) : Bool :=
  match (dGet fs "words").getD (.arr []) with
  | .arr ws => ws.all isObj && allComparable (keptTexts ws)
  | _ => true

/-- The `keystrokes` field of the session is benign for the canonicalizer:
if it is a list, all its elements are dicts. -/
def ksOk (fs : List (String × JVal)) : Bool :=
  match (dGet fs "keystrokes").getD (.arr []) with
  | .arr ks => ks.all isObj
  | _ => true

end ValidateSession

/-- Forget the rank field, leaving the payload `delete_score_by_hash` must
not touch. -/
def GenerateStatic.eraseRank (s : GenerateStatic.Score) : GenerateStatic.Score :=
  { s with rank := none }




/-- The underlying string of a string value (used to transport word-text
lists to `String` lists). -/
def JVal.unStr : JVal → String
  | .str s => s
  | _ => ""

/-- Decidable equality of `Except` results, used to evaluate the model on
concrete inputs. -/
instance {ε α : Type} [DecidableEq ε] [DecidableEq α] : DecidableEq (Except ε α) :=
  fun a b =>
    match a, b with
    | .ok x, .ok y =>
        if h : x = y then isTrue (by rw [h])
        else isFalse (by intro hc; cases hc; exact h rfl)
    | .error x, .error y =>
        if h : x = y then isTrue (by rw [h])
        else isFalse (by intro hc; cases hc; exact h rfl)
    | .ok _, .error _ => isFalse (by intro hc; cases hc)
    | .error _, .ok _ => isFalse (by intro hc; cases hc)


/-! ### Lemmas about the shared dedup loop -/

namespace GenerateStatic

variable {α : Type} (key : α → Option String)

theorem mem_dedupByKey {x : α} : ∀ {seen : List String} {l : List α},
    x ∈ dedupByKey key seen l → x ∈ l ∧ ∃ k, key x = some k ∧ k ≠ "" := by
  intro seen l
  induction l generalizing seen with
  | nil => intro h; simp [dedupByKey] at h
  | cons y rest ih =>
      intro h
      unfold dedupByKey at h
      split at h
      next k hky =>
        split at h
        next hkeep =>
          rcases List.mem_cons.mp h with hx | hx
          · subst hx
            have h2 := hkeep
            simp only [Bool.and_eq_true, decide_eq_true_eq] at h2
            exact ⟨List.mem_cons_self _ _, k, hky, h2.1⟩
          · rcases ih hx with ⟨hm, hk⟩
            exact ⟨List.mem_cons_of_mem _ hm, hk⟩
        next hkeep =>
          rcases ih h with ⟨hm, hk⟩
          exact ⟨List.mem_cons_of_mem _ hm, hk⟩
      next hky =>
        rcases ih h with ⟨hm, hk⟩
        exact ⟨List.mem_cons_of_mem _ hm, hk⟩

theorem dedupByKey_cons_none {y : α} {seen : List String} {rest : List α}
    (h : key y = none) :
    dedupByKey key seen (y :: rest) = dedupByKey key seen rest := by
  conv_lhs => rw [dedupByKey, h]

theorem dedupByKey_cons_keep {y : α} {k : String} {seen : List String} {rest : List α}
    (h : key y = some k) (hc : (k ≠ "" && !seen.contains k) = true) :
    dedupByKey key seen (y :: rest) = y :: dedupByKey key (k :: seen) rest := by
  conv_lhs => rw [dedupByKey, h]
  exact if_pos hc

theorem dedupByKey_cons_drop {y : α} {k : String} {seen : List String} {rest : List α}
    (h : key y = some k) (hc : (k ≠ "" && !seen.contains k) = false) :
    dedupByKey key seen (y :: rest) = dedupByKey key seen rest := by
  conv_lhs => rw [dedupByKey, h]
  have hne : ¬((k ≠ "" && !seen.contains k) = true) := by
    rw [hc]; exact Bool.false_ne_true
  exact if_neg hne

theorem keep_cond_of_unseen {k : String} {seen : List String} (hk : k ≠ "")
    (hseen : k ∉ seen) : (k ≠ "" && !seen.contains k) = true := by
  simp only [Bool.and_eq_true, decide_eq_true_eq, Bool.not_eq_true']
  refine ⟨hk, ?_⟩
  cases hc : seen.contains k
  · rfl
  · exact absurd (List.elem_iff.mp hc) hseen

theorem dedupByKey_eq_self : ∀ {seen : List String} {l : List α},
    (∀ x ∈ l, ∃ k, key x = some k ∧ k ≠ "") →
    (l.filterMap key).Nodup →
    (∀ x ∈ l, ∀ k, key x = some k → k ∉ seen) →
    dedupByKey key seen l = l := by
  intro seen l
  induction l generalizing seen with
  | nil => intro _ _ _; rfl
  | cons y rest ih =>
      intro hall hnd hseen
      rcases hall y (List.mem_cons_self _ _) with ⟨k, hky, hk⟩
      have hnotseen : k ∉ seen := hseen y (List.mem_cons_self _ _) k hky
      rw [dedupByKey_cons_keep key hky (keep_cond_of_unseen hk hnotseen)]
      have hsplit : (y :: rest).filterMap key = k :: rest.filterMap key := by
        simp [List.filterMap_cons, hky]
      rw [hsplit] at hnd
      congr 1
      refine ih (fun x hx => hall x (List.mem_cons_of_mem _ hx))
        (List.nodup_cons.mp hnd).2 ?_
      intro x hx k2 hk2 hmem
      rcases List.mem_cons.mp hmem with hk2k | hk2seen
      · subst hk2k
        exact (List.nodup_cons.mp hnd).1 (List.mem_filterMap.mpr ⟨x, hx, hk2⟩)
      · exact hseen x (List.mem_cons_of_mem _ hx) k2 hk2 hk2seen

theorem countP_dedupByKey_of_seen {k : String} :
    ∀ {seen : List String} {l : List α}, k ∈ seen →
    (dedupByKey key seen l).countP (fun x => key x == some k) = 0 := by
  intro seen l
  induction l generalizing seen with
  | nil => intro _; rfl
  | cons y rest ih =>
      intro hk
      cases hky : key y with
      | none => rw [dedupByKey_cons_none key hky]; exact ih hk
      | some k2 =>
          cases hc : (k2 ≠ "" && !seen.contains k2) with
          | false => rw [dedupByKey_cons_drop key hky hc]; exact ih hk
          | true =>
              rw [dedupByKey_cons_keep key hky hc, List.countP_cons]
              have h2 := hc
              simp only [Bool.and_eq_true, decide_eq_true_eq,
                Bool.not_eq_true'] at h2
              have hne : (key y == some k) = false := by
                rw [hky]
                have hkk : k2 ≠ k := by
                  intro he; subst he
                  have hcm : seen.contains k2 = true := List.elem_iff.mpr hk
                  rw [h2.2] at hcm
                  cases hcm
                simp [hkk]
              rw [hne]
              simpa using ih (List.mem_cons_of_mem _ hk)

theorem countP_dedupByKey_of_unseen {k : String} (hk : k ≠ "") :
    ∀ {seen : List String} {l : List α}, k ∉ seen →
    (dedupByKey key seen l).countP (fun x => key x == some k) =
      min (l.countP (fun x => key x == some k)) 1 := by
  intro seen l
  induction l generalizing seen with
  | nil => intro _; rfl
  | cons y rest ih =>
      intro hseen
      cases hky : key y with
      | none =>
          rw [dedupByKey_cons_none key hky, List.countP_cons]
          have hne : (key y == some k) = false := by rw [hky]; rfl
          rw [hne]
          simpa using ih hseen
      | some k2 =>
          by_cases hk2 : k2 = k
          · subst hk2
            rw [dedupByKey_cons_keep key hky (keep_cond_of_unseen hk hseen),
              List.countP_cons, List.countP_cons,
              countP_dedupByKey_of_seen key (List.mem_cons_self _ _)]
            have ht : (key y == some k2) = true := by rw [hky]; simp
            rw [ht]
            simp
          · have hne : (key y == some k) = false := by rw [hky]; simp [hk2]
            cases hc : (k2 ≠ "" && !seen.contains k2) with
            | false =>
                rw [dedupByKey_cons_drop key hky hc, List.countP_cons, hne]
                simpa using ih hseen
            | true =>
                rw [dedupByKey_cons_keep key hky hc, List.countP_cons,
                  List.countP_cons, hne]
                have hnot : k ∉ k2 :: seen := by
                  intro hm
                  rcases List.mem_cons.mp hm with he | hm2
                  · exact hk2 he.symm
                  · exact hseen hm2
                simpa using ih hnot

theorem find?_dedupByKey {k : String} (hk : k ≠ "") :
    ∀ {seen : List String} {l : List α}, k ∉ seen →
    (dedupByKey key seen l).find? (fun x => key x == some k) =
      l.find? (fun x => key x == some k) := by
  intro seen l
  induction l generalizing seen with
  | nil => intro _; rfl
  | cons y rest ih =>
      intro hseen
      cases hky : key y with
      | none =>
          have hne : (key y == some k) = false := by rw [hky]; rfl
          rw [dedupByKey_cons_none key hky]
          simp only [List.find?_cons, hne]
          exact ih hseen
      | some k2 =>
          by_cases hk2 : k2 = k
          · subst hk2
            have ht : (key y == some k2) = true := by rw [hky]; simp
            rw [dedupByKey_cons_keep key hky (keep_cond_of_unseen hk hseen)]
            simp only [List.find?_cons, ht]
          · have hne : (key y == some k) = false := by rw [hky]; simp [hk2]
            cases hc : (k2 ≠ "" && !seen.contains k2) with
            | false =>
                rw [dedupByKey_cons_drop key hky hc]
                simp only [List.find?_cons, hne]
                exact ih hseen
            | true =>
                rw [dedupByKey_cons_keep key hky hc]
                simp only [List.find?_cons, hne]
                refine ih ?_
                intro hm
                rcases List.mem_cons.mp hm with he | hm2
                · exact hk2 he.symm
                · exact hseen hm2

theorem exists_mem_dedupByKey {x : α} {k : String} (hk : k ≠ "") :
    ∀ {seen : List String} {l : List α}, x ∈ l → key x = some k → k ∉ seen →
    ∃ y ∈ dedupByKey key seen l, key y = some k := by
  intro seen l
  induction l generalizing seen with
  | nil => intro h; simp at h
  | cons y rest ih =>
      intro hx hkx hseen
      cases hky : key y with
      | none =>
          rw [dedupByKey_cons_none key hky]
          rcases List.mem_cons.mp hx with he | hm
          · subst he; rw [hky] at hkx; cases hkx
          · exact ih hm hkx hseen
      | some k2 =>
          by_cases hk2 : k2 = k
          · subst hk2
            rw [dedupByKey_cons_keep key hky (keep_cond_of_unseen hk hseen)]
            exact ⟨y, List.mem_cons_self _ _, hky⟩
          · have hnot : k ∉ k2 :: seen := by
              intro hm
              rcases List.mem_cons.mp hm with he | hm2
              · exact hk2 he.symm
              · exact hseen hm2
            have hmr : x ∈ rest := by
              rcases List.mem_cons.mp hx with he | hm
              · subst he; rw [hky] at hkx; cases hkx; exact absurd rfl hk2
              · exact hm
            cases hc : (k2 ≠ "" && !seen.contains k2) with
            | false =>
                rw [dedupByKey_cons_drop key hky hc]
                exact ih hmr hkx hseen
            | true =>
                rw [dedupByKey_cons_keep key hky hc]
                rcases ih hmr hkx hnot with ⟨z, hz, hkz⟩
                exact ⟨z, List.mem_cons_of_mem _ hz, hkz⟩

end GenerateStatic

/-! ### Lemmas about rank assignment and the leaderboard sort order -/

namespace GenerateStatic

theorem length_assignRanks : ∀ (n : Nat) (l : List Score),
    (assignRanks n l).length = l.length
  | _, [] => rfl
  | n, _ :: rest => by simp [assignRanks, length_assignRanks (n + 1) rest]

theorem map_rank_assignRanks : ∀ (n : Nat) (l : List Score),
    (assignRanks n l).map Score.rank = (List.range' n l.length).map some
  | _, [] => rfl
  | n, s :: rest => by
      simp only [assignRanks, List.map_cons, List.length_cons, List.range'_succ]
      exact congrArg _ (map_rank_assignRanks (n + 1) rest)

theorem countP_hash_assignRanks (h : String) : ∀ (n : Nat) (l : List Score),
    (assignRanks n l).countP (fun s => s.sessionHash == some h) =
      l.countP (fun s => s.sessionHash == some h)
  | _, [] => rfl
  | n, s :: rest => by
      simp only [assignRanks, List.countP_cons]
      rw [countP_hash_assignRanks h (n + 1) rest]

theorem mem_assignRanks {x : Score} : ∀ {n : Nat} {l : List Score},
    x ∈ assignRanks n l → ∃ y ∈ l, ∃ m, x = { y with rank := some m } := by
  intro n l
  induction l generalizing n with
  | nil => intro h; simp [assignRanks] at h
  | cons s rest ih =>
      intro h
      rcases List.mem_cons.mp h with he | hm
      · exact ⟨s, List.mem_cons_self _ _, n, he⟩
      · rcases ih hm with ⟨y, hy, m, he⟩
        exact ⟨y, List.mem_cons_of_mem _ hy, m, he⟩

theorem scoreLe_rank_left {a b : Score} {r : Option Nat} :
    scoreLe { a with rank := r } b ↔ scoreLe a b := Iff.rfl

theorem pairwise_assignRanks : ∀ {n : Nat} {l : List Score},
    l.Pairwise scoreLe → (assignRanks n l).Pairwise scoreLe := by
  intro n l
  induction l generalizing n with
  | nil => intro _; exact List.Pairwise.nil
  | cons s rest ih =>
      intro h
      rcases List.pairwise_cons.mp h with ⟨hall, hrest⟩
      refine List.pairwise_cons.mpr ⟨?_, ih hrest⟩
      intro b hb
      rcases mem_assignRanks hb with ⟨y, hy, m, he⟩
      subst he
      exact hall y hy

theorem map_eraseRank_assignRanks : ∀ (n : Nat) (l : List Score),
    (assignRanks n l).map eraseRank = l.map eraseRank
  | _, [] => rfl
  | n, s :: rest => by
      simp only [assignRanks, List.map_cons, eraseRank]
      exact congrArg _ (map_eraseRank_assignRanks (n + 1) rest)

end GenerateStatic

namespace GenerateStatic

theorem truthyS_iff {o : Option String} :
    truthyS o = true ↔ ∃ k, o = some k ∧ k ≠ "" := by
  cases o with
  | none => simp [truthyS]
  | some s => simp [truthyS]

/-- C3: for score lists `L1` (existing) and `L2` (incoming) whose entries
all carry truthy `sessionHash` values with no duplicates within or across,
`generate_leaderboard` produces exactly `min (|L1|+|L2|) N` entries, sorted
by WPM descending with ties broken by timestamp ascending, and with rank
fields exactly `1, 2, ...` in that order. -/
theorem claim_C3_merge_count_sort_ranks
    (L1 L2 : List Score) (N : Nat) (now : Int)
    (hall : ∀ s ∈ L1 ++ L2, truthyS s.sessionHash = true)
    (hnd : ((L1 ++ L2).filterMap Score.sessionHash).Nodup) :
    (generate_leaderboard L1 L2 N now).scores.length =
        min (L1.length + L2.length) N ∧
    (generate_leaderboard L1 L2 N now).scores.Pairwise scoreLe ∧
    (generate_leaderboard L1 L2 N now).scores.map Score.rank =
      (List.range' 1 (generate_leaderboard L1 L2 N now).scores.length).map some := by
  have hded : dedupByKey Score.sessionHash [] (L1 ++ L2) = L1 ++ L2 :=
    dedupByKey_eq_self _ (fun x hx => truthyS_iff.mp (hall x hx)) hnd
      (fun x _ k _ => List.not_mem_nil k)
  have hs : (generate_leaderboard L1 L2 N now).scores =
      assignRanks 1 (((L1 ++ L2).insertionSort scoreLe).take N) := by
    simp only [generate_leaderboard, hded]
  refine ⟨?_, ?_, ?_⟩
  · rw [hs, length_assignRanks, List.length_take, List.length_insertionSort,
      List.length_append, Nat.min_comm]
  · rw [hs]
    exact pairwise_assignRanks
      (List.Pairwise.sublist (List.take_sublist _ _)
        (List.sorted_insertionSort scoreLe _))
  · rw [hs, length_assignRanks, map_rank_assignRanks]

/-- Witness for C3 on the two-score example of the design document. -/
theorem claim_C3_witness :
    (∀ s ∈ [({ sessionHash := some "abc123", wpm := some 145,
                timestamp := some 1705161200000, rank := none } : Score)] ++
          [({ sessionHash := some "def456", wpm := some 130,
                timestamp := some 1705161300000, rank := none } : Score)],
        truthyS s.sessionHash = true) ∧
    (([({ sessionHash := some "abc123", wpm := some 145,
          timestamp := some 1705161200000, rank := none } : Score)] ++
      [({ sessionHash := some "def456", wpm := some 130,
          timestamp := some 1705161300000, rank := none } : Score)]).filterMap
        Score.sessionHash).Nodup ∧
    ((generate_leaderboard
        [({ sessionHash := some "abc123", wpm := some 145,
            timestamp := some 1705161200000, rank := none } : Score)]
        [({ sessionHash := some "def456", wpm := some 130,
            timestamp := some 1705161300000, rank := none } : Score)]
        50 0).scores.length = min (1 + 1) 50 ∧
      (generate_leaderboard
        [({ sessionHash := some "abc123", wpm := some 145,
            timestamp := some 1705161200000, rank := none } : Score)]
        [({ sessionHash := some "def456", wpm := some 130,
            timestamp := some 1705161300000, rank := none } : Score)]
        50 0).scores.Pairwise scoreLe ∧
      (generate_leaderboard
        [({ sessionHash := some "abc123", wpm := some 145,
            timestamp := some 1705161200000, rank := none } : Score)]
        [({ sessionHash := some "def456", wpm := some 130,
            timestamp := some 1705161300000, rank := none } : Score)]
        50 0).scores.map Score.rank =
        (List.range' 1 (generate_leaderboard
          [({ sessionHash := some "abc123", wpm := some 145,
              timestamp := some 1705161200000, rank := none } : Score)]
          [({ sessionHash := some "def456", wpm := some 130,
              timestamp := some 1705161300000, rank := none } : Score)]
          50 0).scores.length).map some) :=
  ⟨by decide, by decide,
    claim_C3_merge_count_sort_ranks _ _ 50 0 (by decide) (by decide)⟩

end GenerateStatic

namespace GenerateStatic

/-- C4 fails as stated: with cap 1, two same-hash incoming entries are
deduplicated to the first, but the survivor is then truncated away by a
higher-WPM entry, so the merged leaderboard keeps zero entries for that
hash, not exactly one. -/
theorem claim_C4_counterexample :
    (([({ sessionHash := some "aaa", wpm := some 100, timestamp := some 0,
          rank := none } : Score)] ++
      [({ sessionHash := some "bbb", wpm := some 50, timestamp := some 0,
          rank := none } : Score),
       ({ sessionHash := some "bbb", wpm := some 60, timestamp := some 1,
          rank := none } : Score)]).countP
        (fun s => s.sessionHash == some "bbb") = 2) ∧
    ((generate_leaderboard
        [({ sessionHash := some "aaa", wpm := some 100, timestamp := some 0,
            rank := none } : Score)]
        [({ sessionHash := some "bbb", wpm := some 50, timestamp := some 0,
            rank := none } : Score),
         ({ sessionHash := some "bbb", wpm := some 60, timestamp := some 1,
            rank := none } : Score)]
        1 0).scores.countP (fun s => s.sessionHash == some "bbb") = 0) := by
  constructor
  · decide
  · decide

/-- C4 (amended): when the concatenation holds two or more entries with the
same non-empty `sessionHash`, the dedup stage keeps exactly one entry for
that hash — the first occurrence in existing-then-incoming order, so an
existing entry wins over a same-hash incoming one — and the final merged
leaderboard keeps at most one entry for that hash (exactly the dedup
survivor when it is within the cap). -/
theorem claim_C4_dedup_first_occurrence
    (ex inc : List Score) (N : Nat) (now : Int) (h : String) (hne : h ≠ "")
    (hdup : 2 ≤ (ex ++ inc).countP (fun s => s.sessionHash == some h)) :
    (dedupByKey Score.sessionHash [] (ex ++ inc)).countP
        (fun s => s.sessionHash == some h) = 1 ∧
    (dedupByKey Score.sessionHash [] (ex ++ inc)).find?
        (fun s => s.sessionHash == some h) =
      (ex ++ inc).find? (fun s => s.sessionHash == some h) ∧
    (generate_leaderboard ex inc N now).scores.countP
        (fun s => s.sessionHash == some h) ≤ 1 := by
  have hcount : (dedupByKey Score.sessionHash [] (ex ++ inc)).countP
      (fun s => s.sessionHash == some h) = 1 := by
    rw [countP_dedupByKey_of_unseen _ hne (List.not_mem_nil h)]
    omega
  refine ⟨hcount, find?_dedupByKey _ hne (List.not_mem_nil h), ?_⟩
  have hs : (generate_leaderboard ex inc N now).scores =
      assignRanks 1 (((dedupByKey Score.sessionHash []
        (ex ++ inc)).insertionSort scoreLe).take N) := by
    simp only [generate_leaderboard]
  rw [hs, countP_hash_assignRanks]
  calc (((dedupByKey Score.sessionHash [] (ex ++ inc)).insertionSort
          scoreLe).take N).countP (fun s => s.sessionHash == some h)
      ≤ ((dedupByKey Score.sessionHash []
          (ex ++ inc)).insertionSort scoreLe).countP
            (fun s => s.sessionHash == some h) :=
        List.Sublist.countP_le _ (List.take_sublist _ _)
    _ = (dedupByKey Score.sessionHash [] (ex ++ inc)).countP
          (fun s => s.sessionHash == some h) :=
        (List.perm_insertionSort scoreLe _).countP_eq _
    _ ≤ 1 := le_of_eq hcount

/-- Witness for the amended C4 on a two-duplicate example. -/
theorem claim_C4_witness :
    ("bbb" ≠ "") ∧
    (2 ≤ ((([] : List GenerateStatic.Score) ++
        [({ sessionHash := some "bbb", wpm := some 50, timestamp := some 0,
            rank := none } : Score),
         ({ sessionHash := some "bbb", wpm := some 60, timestamp := some 1,
            rank := none } : Score)]).countP
          (fun s => s.sessionHash == some "bbb"))) ∧
    ((dedupByKey Score.sessionHash [] (([] : List GenerateStatic.Score) ++
        [({ sessionHash := some "bbb", wpm := some 50, timestamp := some 0,
            rank := none } : Score),
         ({ sessionHash := some "bbb", wpm := some 60, timestamp := some 1,
            rank := none } : Score)])).countP
          (fun s => s.sessionHash == some "bbb") = 1 ∧
     (dedupByKey Score.sessionHash [] (([] : List GenerateStatic.Score) ++
        [({ sessionHash := some "bbb", wpm := some 50, timestamp := some 0,
            rank := none } : Score),
         ({ sessionHash := some "bbb", wpm := some 60, timestamp := some 1,
            rank := none } : Score)])).find?
          (fun s => s.sessionHash == some "bbb") =
        (([] : List GenerateStatic.Score) ++
          [({ sessionHash := some "bbb", wpm := some 50, timestamp := some 0,
              rank := none } : Score),
           ({ sessionHash := some "bbb", wpm := some 60, timestamp := some 1,
              rank := none } : Score)]).find?
            (fun s => s.sessionHash == some "bbb") ∧
     (generate_leaderboard []
        [({ sessionHash := some "bbb", wpm := some 50, timestamp := some 0,
            rank := none } : Score),
         ({ sessionHash := some "bbb", wpm := some 60, timestamp := some 1,
            rank := none } : Score)]
        50 0).scores.countP (fun s => s.sessionHash == some "bbb") ≤ 1) :=
  ⟨by decide, by decide,
    claim_C4_dedup_first_occurrence ([] : List GenerateStatic.Score) _ 50 0 "bbb" (by decide) (by decide)⟩

end GenerateStatic

namespace GenerateStatic

/-- C10: every entry of the merged leaderboard carries a present, non-empty
`sessionHash`; an input score with a missing or empty hash is silently
dropped and never appears in the output, no matter its WPM. -/
theorem claim_C10_output_hashes_truthy (ex inc : List Score) (N : Nat) (now : Int) :
    (∀ s ∈ (generate_leaderboard ex inc N now).scores,
        ∃ h, s.sessionHash = some h ∧ h ≠ "") ∧
    (∀ s, truthyS s.sessionHash = false →
        s ∉ (generate_leaderboard ex inc N now).scores) := by
  have hs : (generate_leaderboard ex inc N now).scores =
      assignRanks 1 (((dedupByKey Score.sessionHash []
        (ex ++ inc)).insertionSort scoreLe).take N) := by
    simp only [generate_leaderboard]
  have hmain : ∀ s ∈ (generate_leaderboard ex inc N now).scores,
      ∃ h, s.sessionHash = some h ∧ h ≠ "" := by
    intro s hsmem
    rw [hs] at hsmem
    rcases mem_assignRanks hsmem with ⟨y, hy, m, he⟩
    have hy2 : y ∈ (dedupByKey Score.sessionHash []
        (ex ++ inc)).insertionSort scoreLe :=
      (List.take_sublist _ _).subset hy
    have hy3 : y ∈ dedupByKey Score.sessionHash [] (ex ++ inc) :=
      (List.perm_insertionSort scoreLe _).mem_iff.mp hy2
    rcases (mem_dedupByKey _ hy3).2 with ⟨k, hk, hkne⟩
    subst he
    exact ⟨k, hk, hkne⟩
  refine ⟨hmain, ?_⟩
  intro s hfalsy hsmem
  rcases hmain s hsmem with ⟨h, hh, hne⟩
  rw [hh] at hfalsy
  simp [truthyS] at hfalsy
  exact hne hfalsy

/-- Witness for C10: a falsy-hash score with the highest WPM is dropped
while the truthy-hash entries survive. -/
theorem claim_C10_witness :
    (({ sessionHash := some "ok1", wpm := some 100, timestamp := some 0,
        rank := some 1 } : Score) ∈
      (generate_leaderboard
        [({ sessionHash := some "ok1", wpm := some 100, timestamp := some 0,
            rank := none } : Score)]
        [({ sessionHash := none, wpm := some 999, timestamp := some 0,
            rank := none } : Score),
         ({ sessionHash := some "", wpm := some 998, timestamp := some 0,
            rank := none } : Score)]
        50 0).scores) ∧
    (∃ h, (some "ok1" : Option String) = some h ∧ h ≠ "") ∧
    (({ sessionHash := none, wpm := some 999, timestamp := some 0,
        rank := none } : Score) ∉
      (generate_leaderboard
        [({ sessionHash := some "ok1", wpm := some 100, timestamp := some 0,
            rank := none } : Score)]
        [({ sessionHash := none, wpm := some 999, timestamp := some 0,
            rank := none } : Score),
         ({ sessionHash := some "", wpm := some 998, timestamp := some 0,
            rank := none } : Score)]
        50 0).scores) :=
  ⟨by decide,
    (claim_C10_output_hashes_truthy
      [({ sessionHash := some "ok1", wpm := some 100, timestamp := some 0,
          rank := none } : Score)]
      [({ sessionHash := none, wpm := some 999, timestamp := some 0,
          rank := none } : Score),
       ({ sessionHash := some "", wpm := some 998, timestamp := some 0,
          rank := none } : Score)]
      50 0).1 ({ sessionHash := some "ok1", wpm := some 100, timestamp := some 0, rank := some 1 } : Score) (by decide),
    (claim_C10_output_hashes_truthy
      [({ sessionHash := some "ok1", wpm := some 100, timestamp := some 0,
          rank := none } : Score)]
      [({ sessionHash := none, wpm := some 999, timestamp := some 0,
          rank := none } : Score),
       ({ sessionHash := some "", wpm := some 998, timestamp := some 0,
          rank := none } : Score)]
      50 0).2 ({ sessionHash := none, wpm := some 999, timestamp := some 0, rank := none } : Score) (by decide)⟩

end GenerateStatic

namespace ModerateScores

open GenerateStatic

theorem countP_hash_le_one_of_nodup {h : String} : ∀ {l : List Score},
    (l.filterMap Score.sessionHash).Nodup →
    l.countP (fun s => s.sessionHash == some h) ≤ 1 := by
  intro l
  induction l with
  | nil => intro _; simp
  | cons s rest ih =>
      intro hnd
      rw [List.countP_cons]
      cases hs : s.sessionHash with
      | none =>
          have hrest : (rest.filterMap Score.sessionHash).Nodup := by
            rw [List.filterMap_cons, hs] at hnd
            exact hnd
          simpa using ih hrest
      | some k =>
          have hsplit : ((s :: rest).filterMap Score.sessionHash) =
              k :: rest.filterMap Score.sessionHash := by
            simp [List.filterMap_cons, hs]
          rw [hsplit] at hnd
          by_cases hk : k = h
          · subst hk
            have hzero : rest.countP (fun s => s.sessionHash == some k) = 0 := by
              rw [List.countP_eq_zero]
              intro a ha hpa
              have hak : a.sessionHash = some k := by
                cases hsa : a.sessionHash with
                | none => rw [hsa] at hpa; cases hpa
                | some k2 =>
                    rw [hsa] at hpa
                    simp at hpa
                    rw [hpa]
              exact (List.nodup_cons.mp hnd).1
                (List.mem_filterMap.mpr ⟨a, ha, hak⟩)
            simp [hzero]
          · have hrest := (List.nodup_cons.mp hnd).2
            have hik := ih hrest
            have hcond : (some k == some h) = false := by simp [hk]
            rw [hcond]
            simpa using hik

/-- C5: on a leaderboard whose entries have pairwise-distinct session
hashes (the documented leaderboard invariant), `delete_score_by_hash`
returns false when no entry matches, removes exactly one entry and returns
true when one does, and always leaves the survivors in their original
relative order with rank fields `1..count`. -/
theorem claim_C5_delete_by_hash (scores : List Score) (h : String)
    (hnd : (scores.filterMap Score.sessionHash).Nodup) :
    ((delete_score_by_hash scores h).2 = true ↔
      ∃ s ∈ scores, s.sessionHash = some h) ∧
    ((delete_score_by_hash scores h).2 = true →
      (delete_score_by_hash scores h).1.length + 1 = scores.length) ∧
    ((delete_score_by_hash scores h).1.map Score.rank =
      (List.range' 1 (delete_score_by_hash scores h).1.length).map some) ∧
    ((delete_score_by_hash scores h).1.map eraseRank =
      (scores.filter (fun s => !(s.sessionHash == some h))).map eraseRank) := by
  have hfst : (delete_score_by_hash scores h).1 =
      assignRanks 1 (scores.filter (fun s => !(s.sessionHash == some h))) := rfl
  have hsnd : (delete_score_by_hash scores h).2 =
      decide ((scores.filter
        (fun s => !(s.sessionHash == some h))).length < scores.length) := rfl
  refine ⟨?_, ?_, ?_, ?_⟩
  · rw [hsnd]
    simp only [decide_eq_true_eq, List.length_filter_lt_length_iff_exists]
    constructor
    · rintro ⟨x, hx, hpx⟩
      refine ⟨x, hx, ?_⟩
      cases hsx : x.sessionHash with
      | none => rw [hsx] at hpx; simp at hpx
      | some k =>
          rw [hsx] at hpx
          simp at hpx
          rw [hpx]
    · rintro ⟨x, hx, hpx⟩
      exact ⟨x, hx, by simp [hpx]⟩
  · intro hfound
    rw [hsnd] at hfound
    simp only [decide_eq_true_eq, List.length_filter_lt_length_iff_exists] at hfound
    have hone : scores.countP (fun s => s.sessionHash == some h) = 1 := by
      have hle := countP_hash_le_one_of_nodup (h := h) hnd
      have hge : 1 ≤ scores.countP (fun s => s.sessionHash == some h) := by
        rcases hfound with ⟨x, hx, hpx⟩
        have hxt : (x.sessionHash == some h) = true := by
          simpa using hpx
        calc 1 = [x].countP (fun s => s.sessionHash == some h) := by
                simp [List.countP_cons, hxt]
          _ ≤ scores.countP (fun s => s.sessionHash == some h) :=
                List.Sublist.countP_le _ (List.singleton_sublist.mpr hx)
      omega
    rw [hfst, length_assignRanks]
    have hsum := List.length_eq_countP_add_countP
      (fun s => s.sessionHash == some h) scores
    have hsame : (scores.filter (fun s => !(s.sessionHash == some h))).length =
        scores.countP (fun a => !(a.sessionHash == some h)) :=
      (List.countP_eq_length_filter _ _).symm
    have hnot : scores.countP (fun a => decide ¬(a.sessionHash == some h) = true) =
        scores.countP (fun a => !(a.sessionHash == some h)) := by
      refine List.countP_congr ?_
      intro a _
      cases ha : (a.sessionHash == some h) <;> simp [ha]
    rw [hnot, ← hsame] at hsum
    omega
  · rw [hfst, length_assignRanks, map_rank_assignRanks]
  · rw [hfst, map_eraseRank_assignRanks]

/-- Witness for C5 on a three-entry leaderboard, deleting the rank-2 entry:
the result keeps the other two, re-ranked 1 and 2 in their old order. -/
theorem claim_C5_witness :
    (([({ sessionHash := some "h1", wpm := some 150, timestamp := some 10, rank := some 1 } : GenerateStatic.Score), ({ sessionHash := some "h2", wpm := some 140, timestamp := some 20, rank := some 2 } : GenerateStatic.Score), ({ sessionHash := some "h3", wpm := some 130, timestamp := some 30, rank := some 3 } : GenerateStatic.Score)].filterMap GenerateStatic.Score.sessionHash).Nodup) ∧
    (((delete_score_by_hash [({ sessionHash := some "h1", wpm := some 150, timestamp := some 10, rank := some 1 } : GenerateStatic.Score), ({ sessionHash := some "h2", wpm := some 140, timestamp := some 20, rank := some 2 } : GenerateStatic.Score), ({ sessionHash := some "h3", wpm := some 130, timestamp := some 30, rank := some 3 } : GenerateStatic.Score)] "h2").2 = true ↔ ∃ s ∈ [({ sessionHash := some "h1", wpm := some 150, timestamp := some 10, rank := some 1 } : GenerateStatic.Score), ({ sessionHash := some "h2", wpm := some 140, timestamp := some 20, rank := some 2 } : GenerateStatic.Score), ({ sessionHash := some "h3", wpm := some 130, timestamp := some 30, rank := some 3 } : GenerateStatic.Score)], s.sessionHash = some "h2") ∧
     ((delete_score_by_hash [({ sessionHash := some "h1", wpm := some 150, timestamp := some 10, rank := some 1 } : GenerateStatic.Score), ({ sessionHash := some "h2", wpm := some 140, timestamp := some 20, rank := some 2 } : GenerateStatic.Score), ({ sessionHash := some "h3", wpm := some 130, timestamp := some 30, rank := some 3 } : GenerateStatic.Score)] "h2").2 = true → (delete_score_by_hash [({ sessionHash := some "h1", wpm := some 150, timestamp := some 10, rank := some 1 } : GenerateStatic.Score), ({ sessionHash := some "h2", wpm := some 140, timestamp := some 20, rank := some 2 } : GenerateStatic.Score), ({ sessionHash := some "h3", wpm := some 130, timestamp := some 30, rank := some 3 } : GenerateStatic.Score)] "h2").1.length + 1 = [({ sessionHash := some "h1", wpm := some 150, timestamp := some 10, rank := some 1 } : GenerateStatic.Score), ({ sessionHash := some "h2", wpm := some 140, timestamp := some 20, rank := some 2 } : GenerateStatic.Score), ({ sessionHash := some "h3", wpm := some 130, timestamp := some 30, rank := some 3 } : GenerateStatic.Score)].length) ∧
     ((delete_score_by_hash [({ sessionHash := some "h1", wpm := some 150, timestamp := some 10, rank := some 1 } : GenerateStatic.Score), ({ sessionHash := some "h2", wpm := some 140, timestamp := some 20, rank := some 2 } : GenerateStatic.Score), ({ sessionHash := some "h3", wpm := some 130, timestamp := some 30, rank := some 3 } : GenerateStatic.Score)] "h2").1.map GenerateStatic.Score.rank = (List.range' 1 (delete_score_by_hash [({ sessionHash := some "h1", wpm := some 150, timestamp := some 10, rank := some 1 } : GenerateStatic.Score), ({ sessionHash := some "h2", wpm := some 140, timestamp := some 20, rank := some 2 } : GenerateStatic.Score), ({ sessionHash := some "h3", wpm := some 130, timestamp := some 30, rank := some 3 } : GenerateStatic.Score)] "h2").1.length).map some) ∧
     ((delete_score_by_hash [({ sessionHash := some "h1", wpm := some 150, timestamp := some 10, rank := some 1 } : GenerateStatic.Score), ({ sessionHash := some "h2", wpm := some 140, timestamp := some 20, rank := some 2 } : GenerateStatic.Score), ({ sessionHash := some "h3", wpm := some 130, timestamp := some 30, rank := some 3 } : GenerateStatic.Score)] "h2").1.map GenerateStatic.eraseRank =
       ([({ sessionHash := some "h1", wpm := some 150, timestamp := some 10, rank := some 1 } : GenerateStatic.Score), ({ sessionHash := some "h2", wpm := some 140, timestamp := some 20, rank := some 2 } : GenerateStatic.Score), ({ sessionHash := some "h3", wpm := some 130, timestamp := some 30, rank := some 3 } : GenerateStatic.Score)].filter (fun s => !(s.sessionHash == some "h2"))).map
         GenerateStatic.eraseRank)) :=
  ⟨by decide, claim_C5_delete_by_hash [({ sessionHash := some "h1", wpm := some 150, timestamp := some 10, rank := some 1 } : GenerateStatic.Score), ({ sessionHash := some "h2", wpm := some 140, timestamp := some 20, rank := some 2 } : GenerateStatic.Score), ({ sessionHash := some "h3", wpm := some 130, timestamp := some 30, rank := some 3 } : GenerateStatic.Score)] "h2" (by decide)⟩

end ModerateScores

namespace GenerateStatic

theorem find?_eq_of_mem_of_countP_le_one {β : Type} {p : β → Bool} {x : β} :
    ∀ {l : List β}, x ∈ l → p x = true → l.countP p ≤ 1 → l.find? p = some x := by
  intro l
  induction l with
  | nil => intro hx; simp at hx
  | cons y rest ih =>
      intro hx hpx hc
      rw [List.countP_cons] at hc
      rw [List.find?_cons]
      cases hpy : p y with
      | false =>
          have hx2 : x ∈ rest := by
            rcases List.mem_cons.mp hx with he | hm
            · subst he; rw [hpx] at hpy; cases hpy
            · exact hm
          rw [hpy] at hc
          simp only []
          exact ih hx2 hpx (by omega)
      | true =>
          rcases List.mem_cons.mp hx with he | hm
          · subst he; rfl
          · exfalso
            rw [hpy] at hc
            simp at hc
            rw [hc x hm] at hpx
            cases hpx

/-- C8 fails as stated: the dedup key prefers `feedbackId` and falls back
to `id`, not the other way around.  Two items with the same `id` but
different truthy `feedbackId` values both survive. -/
theorem claim_C8_counterexample :
    (({ id := some "A", feedbackId := some "X", votes := some 0,
        timestamp := some 0 } : Feedback).id =
     ({ id := some "A", feedbackId := some "Y", votes := some 0,
        timestamp := some 1 } : Feedback).id) ∧
    ((generate_feedback []
        [({ id := some "A", feedbackId := some "X", votes := some 0,
            timestamp := some 0 } : Feedback),
         ({ id := some "A", feedbackId := some "Y", votes := some 0,
            timestamp := some 1 } : Feedback)] 0).items.length = 2) := by
  constructor
  · rfl
  · decide

/-- C8 (amended): `generate_feedback` deduplicates by `feedbackId`,
falling back to `id` only when `feedbackId` is absent or falsy, keeping the
first occurrence in existing-then-incoming order; the surviving items are
sorted by votes descending with ties broken by timestamp descending, with
no cap and no rank field (every truthy-keyed input is represented). -/
theorem claim_C8_feedback_merge (ex inc : List Feedback) (now : Int) :
    ((generate_feedback ex inc now).items.Pairwise feedLe) ∧
    (∀ x ∈ (generate_feedback ex inc now).items,
      (ex ++ inc).find? (fun y => feedbackKey y == feedbackKey x) = some x) ∧
    (∀ k : String, k ≠ "" →
      (generate_feedback ex inc now).items.countP
        (fun x => feedbackKey x == some k) ≤ 1) ∧
    (∀ x ∈ ex ++ inc, truthyS (feedbackKey x) = true →
      ∃ y ∈ (generate_feedback ex inc now).items, feedbackKey y = feedbackKey x) := by
  have hs : (generate_feedback ex inc now).items =
      (dedupByKey feedbackKey [] (ex ++ inc)).insertionSort feedLe := by
    simp only [generate_feedback]
  refine ⟨?_, ?_, ?_, ?_⟩
  · rw [hs]
    exact List.sorted_insertionSort feedLe _
  · intro x hx
    rw [hs] at hx
    have hxd : x ∈ dedupByKey feedbackKey [] (ex ++ inc) :=
      (List.perm_insertionSort feedLe _).mem_iff.mp hx
    rcases (mem_dedupByKey _ hxd).2 with ⟨k, hk, hkne⟩
    have hcnt : (dedupByKey feedbackKey [] (ex ++ inc)).countP
        (fun y => feedbackKey y == some k) ≤ 1 := by
      rw [countP_dedupByKey_of_unseen _ hkne (List.not_mem_nil k)]
      omega
    have hfind : (dedupByKey feedbackKey [] (ex ++ inc)).find?
        (fun y => feedbackKey y == some k) = some x :=
      find?_eq_of_mem_of_countP_le_one hxd (by simp [hk]) hcnt
    rw [hk]
    rw [← find?_dedupByKey _ hkne (List.not_mem_nil k), hfind]
  · intro k hkne
    rw [hs, (List.perm_insertionSort feedLe _).countP_eq,
      countP_dedupByKey_of_unseen _ hkne (List.not_mem_nil k)]
    omega
  · intro x hx htr
    rcases truthyS_iff.mp htr with ⟨k, hk, hkne⟩
    rcases exists_mem_dedupByKey _ hkne hx hk (List.not_mem_nil k)
      with ⟨y, hy, hky⟩
    refine ⟨y, ?_, by rw [hky, hk]⟩
    rw [hs]
    exact (List.perm_insertionSort feedLe _).mem_iff.mpr hy

/-- Witness for the amended C8: the fallback key of an item without
`feedbackId` is its `id`, first occurrences win, and the output is sorted
by votes descending. -/
theorem claim_C8_witness :
    (({ id := some "A", feedbackId := none, votes := some 1, timestamp := some 5 } : Feedback) ∈ (generate_feedback [({ id := some "A", feedbackId := none, votes := some 1, timestamp := some 5 } : Feedback)] [({ id := some "A", feedbackId := none, votes := some 9, timestamp := some 6 } : Feedback), ({ id := some "B", feedbackId := some "K", votes := some 4, timestamp := some 7 } : Feedback)] 0).items) ∧
    ((([({ id := some "A", feedbackId := none, votes := some 1, timestamp := some 5 } : Feedback)] ++ [({ id := some "A", feedbackId := none, votes := some 9, timestamp := some 6 } : Feedback), ({ id := some "B", feedbackId := some "K", votes := some 4, timestamp := some 7 } : Feedback)]).find? (fun y => feedbackKey y == feedbackKey ({ id := some "A", feedbackId := none, votes := some 1, timestamp := some 5 } : Feedback))) = some ({ id := some "A", feedbackId := none, votes := some 1, timestamp := some 5 } : Feedback)) ∧
    ((generate_feedback [({ id := some "A", feedbackId := none, votes := some 1, timestamp := some 5 } : Feedback)] [({ id := some "A", feedbackId := none, votes := some 9, timestamp := some 6 } : Feedback), ({ id := some "B", feedbackId := some "K", votes := some 4, timestamp := some 7 } : Feedback)] 0).items.Pairwise feedLe) :=
  ⟨by decide,
    (claim_C8_feedback_merge [({ id := some "A", feedbackId := none, votes := some 1, timestamp := some 5 } : Feedback)] [({ id := some "A", feedbackId := none, votes := some 9, timestamp := some 6 } : Feedback), ({ id := some "B", feedbackId := some "K", votes := some 4, timestamp := some 7 } : Feedback)] 0).2.1 ({ id := some "A", feedbackId := none, votes := some 1, timestamp := some 5 } : Feedback) (by decide),
    (claim_C8_feedback_merge [({ id := some "A", feedbackId := none, votes := some 1, timestamp := some 5 } : Feedback)] [({ id := some "A", feedbackId := none, votes := some 9, timestamp := some 6 } : Feedback), ({ id := some "B", feedbackId := some "K", votes := some 4, timestamp := some 7 } : Feedback)] 0).1⟩

end GenerateStatic

/-! ### Association-list lookup lemmas shared by the dict and file-system models -/

theorem find?_key_map_set {β : Type} {p q : String} (v : β) (h : q ≠ p) :
    ∀ fs : List (String × β),
    (fs.map (fun r => if r.1 == p then (p, v) else r)).find? (fun r => r.1 == q) =
      fs.find? (fun r => r.1 == q) := by
  intro fs
  have hpq : ((p : String) == q) = false := by
    simp [show ¬(p = q) from fun he => h he.symm]
  induction fs with
  | nil => rfl
  | cons r rest ih =>
      cases hr : (r.1 == p) with
      | true =>
          have hr1 : r.1 = p := by simpa using hr
          have hmap : (r :: rest).map (fun t => if t.1 == p then (p, v) else t) =
              (p, v) :: rest.map (fun t => if t.1 == p then (p, v) else t) := by
            rw [List.map_cons, if_pos hr]
          have h2 : (r.1 == q) = false := by rw [hr1]; exact hpq
          rw [hmap, List.find?_cons, List.find?_cons]
          simp only [h2, hpq]
          exact ih
      | false =>
          have hmap : (r :: rest).map (fun t => if t.1 == p then (p, v) else t) =
              r :: rest.map (fun t => if t.1 == p then (p, v) else t) := by
            rw [List.map_cons, if_neg (by simp [hr])]
          rw [hmap, List.find?_cons, List.find?_cons]
          cases hq : (r.1 == q) with
          | true => rfl
          | false => exact ih

theorem find?_key_append_single {β : Type} {p q : String} (v : β) (h : q ≠ p) :
    ∀ fs : List (String × β),
    (fs ++ [(p, v)]).find? (fun r => r.1 == q) = fs.find? (fun r => r.1 == q) := by
  intro fs
  have hpq : ((p : String) == q) = false := by
    simp [show ¬(p = q) from fun he => h he.symm]
  induction fs with
  | nil => simp only [List.nil_append, List.find?_cons, hpq, List.find?_nil]
  | cons r rest ih =>
      rw [List.cons_append, List.find?_cons, List.find?_cons]
      cases hq : (r.1 == q) with
      | true => rfl
      | false => exact ih

theorem find?_key_filter_ne {β : Type} {p q : String} (h : q ≠ p) :
    ∀ fs : List (String × β),
    (fs.filter (fun r => !(r.1 == p))).find? (fun r => r.1 == q) =
      fs.find? (fun r => r.1 == q) := by
  intro fs
  induction fs with
  | nil => rfl
  | cons r rest ih =>
      cases hr : (r.1 == p) with
      | true =>
          have hr1 : r.1 = p := by simpa using hr
          have h2 : (r.1 == q) = false := by
            rw [hr1]
            simp [show ¬(p = q) from fun he => h he.symm]
          have hcond : (!(r.1 == p)) = false := by rw [hr]; rfl
          rw [List.filter_cons, hcond]
          simp only [Bool.false_eq_true, if_false]
          rw [ih]
          simp only [List.find?_cons, h2]
      | false =>
          have hcond : (!(r.1 == p)) = true := by rw [hr]; rfl
          rw [List.filter_cons, hcond]
          simp only [if_pos]
          cases hq : (r.1 == q) with
          | true => simp only [List.find?_cons, hq]
          | false =>
              simp only [List.find?_cons, hq]
              exact ih

theorem find?_key_filter_self {β : Type} {p : String} :
    ∀ fs : List (String × β),
    (fs.filter (fun r => !(r.1 == p))).find? (fun r => r.1 == p) = none := by
  intro fs
  induction fs with
  | nil => rfl
  | cons r rest ih =>
      cases hr : (r.1 == p) with
      | true =>
          have hcond : (!(r.1 == p)) = false := by rw [hr]; rfl
          rw [List.filter_cons, hcond]
          simp only [Bool.false_eq_true, if_false]
          exact ih
      | false =>
          have hcond : (!(r.1 == p)) = true := by rw [hr]; rfl
          rw [List.filter_cons, hcond]
          simp only [if_pos]
          rw [List.find?_cons]
          simp only [hr]
          exact ih

namespace AtomicWrite

theorem fsGet_fsSet_ne {fs : List (String × String)} {p q v : String}
    (h : q ≠ p) : fsGet (fsSet fs p v) q = fsGet fs q := by
  unfold fsGet fsSet
  by_cases hp : ((fs.find? (fun r => r.1 == p)).isSome : Prop)
  · rw [if_pos hp, find?_key_map_set v h fs]
  · rw [if_neg hp, find?_key_append_single v h fs]

theorem fsGet_fsRemove_ne {fs : List (String × String)} {p q : String}
    (h : q ≠ p) : fsGet (fsRemove fs p) q = fsGet fs q := by
  unfold fsGet fsRemove
  rw [find?_key_filter_ne h fs]

theorem fsGet_fsRemove_self {fs : List (String × String)} {p : String} :
    fsGet (fsRemove fs p) p = none := by
  unfold fsGet fsRemove
  rw [find?_key_filter_self fs]
  rfl

/-- C6 is the intended contract, but the code misses it on one path: when
`json.dump` raises after the temp file was created, `tmp_name` was never
assigned, the cleanup guard is false, and the temp file is left on disk.
The function still returns false and the target keeps its prior contents,
but the temporary file is not removed. -/
theorem claim_C6_dump_failure_leaves_tmp :
    ((atomic_write_json [("data/leaderboard.json", "old")] "data/leaderboard.json" ".tmp123" "new" { mkdirFails := false, createFails := false, dumpFails := true, renameFails := false }).2 = false) ∧
    (fsGet (atomic_write_json [("data/leaderboard.json", "old")] "data/leaderboard.json" ".tmp123" "new" { mkdirFails := false, createFails := false, dumpFails := true, renameFails := false }).1 "data/leaderboard.json" = some "old") ∧
    (fsGet (atomic_write_json [("data/leaderboard.json", "old")] "data/leaderboard.json" ".tmp123" "new" { mkdirFails := false, createFails := false, dumpFails := true, renameFails := false }).1 ".tmp123" = some "") :=
  ⟨rfl, rfl, rfl⟩

/-- The failure paths of `atomic_write_json` other than the `json.dump` one
do satisfy the claim: the call returns false, the target keeps its prior
contents, and the temp file is gone afterwards. -/
theorem atomic_write_failure_paths (fs : List (String × String))
    (filepath tmpName content : String) (orc : Oracle)
    (hdiff : filepath ≠ tmpName)
    (hfresh : fsGet fs tmpName = none)
    (hfail : (orc.mkdirFails || orc.createFails || orc.dumpFails ||
      orc.renameFails) = true) :
    (atomic_write_json fs filepath tmpName content orc).2 = false ∧
    fsGet (atomic_write_json fs filepath tmpName content orc).1 filepath =
      fsGet fs filepath ∧
    (orc.dumpFails = false →
      fsGet (atomic_write_json fs filepath tmpName content orc).1 tmpName = none) := by
  obtain ⟨m, c, d, r⟩ := orc
  cases m
  case true => exact ⟨rfl, rfl, fun _ => hfresh⟩
  case false =>
  cases c
  case true => exact ⟨rfl, rfl, fun _ => hfresh⟩
  case false =>
  cases d
  case true =>
      refine ⟨rfl, ?_, ?_⟩
      · exact fsGet_fsSet_ne hdiff
      · intro hc; cases hc
  case false =>
  cases r
  case true =>
      refine ⟨rfl, ?_, ?_⟩
      · show fsGet (fsRemove (fsSet (fsSet fs tmpName "") tmpName content)
          tmpName) filepath = fsGet fs filepath
        rw [fsGet_fsRemove_ne hdiff, fsGet_fsSet_ne hdiff, fsGet_fsSet_ne hdiff]
      · intro _
        exact fsGet_fsRemove_self
  case false => cases hfail

end AtomicWrite

/-! ### The canonicalizer ignores everything outside its four fields -/

namespace JVal

theorem dGet_dSet_ne {fs : List (String × JVal)} {k k2 : String} {v : JVal}
    (h : k2 ≠ k) : dGet (dSet fs k v) k2 = dGet fs k2 := by
  unfold dGet dSet
  by_cases hp : ((fs.find? (fun r => r.1 == k)).isSome : Prop)
  · rw [if_pos hp, find?_key_map_set v h fs]
  · rw [if_neg hp, find?_key_append_single v h fs]

end JVal

namespace ValidateSession

open JVal

/-- C1: writing any value into the `stats` key of a session — in
particular mutating `stats.wpm` or `stats.accuracy` — never changes
`calculate_hash`: the digest only reads `seed`, `stage`, `words` and
`keystrokes`. -/
theorem claim_C1_stats_never_influences_digest
    (fs : List (String × JVal)) (v : JVal) :
    calculate_hash (.obj (dSet fs "stats" v)) = calculate_hash (.obj fs) := by
  have hx : extract_deterministic_data (JVal.obj (dSet fs "stats" v)) =
      extract_deterministic_data (JVal.obj fs) := by
    simp only [extract_deterministic_data]
    rw [dGet_dSet_ne (show "words" ≠ "stats" by decide),
        dGet_dSet_ne (show "keystrokes" ≠ "stats" by decide),
        dGet_dSet_ne (show "seed" ≠ "stats" by decide),
        dGet_dSet_ne (show "stage" ≠ "stats" by decide)]
  simp only [calculate_hash, hx]

end ValidateSession

/-! ### The code-point order used by `sorted` on strings -/

namespace JVal

theorem charsCmp_gt_iff : ∀ (xs ys : List Char),
    charsCmp xs ys = .gt ↔ List.Lex (· < ·) ys xs := by
  intro xs
  induction xs with
  | nil =>
      intro ys
      cases ys with
      | nil =>
          simp only [charsCmp]
          constructor
          · intro h; cases h
          · intro h; cases h
      | cons d ds =>
          simp only [charsCmp]
          constructor
          · intro h; cases h
          · intro h; cases h
  | cons c cs ih =>
      intro ys
      cases ys with
      | nil =>
          simp only [charsCmp]
          exact ⟨fun _ => List.Lex.nil, fun _ => trivial⟩
      | cons d ds =>
          simp only [charsCmp]
          rcases lt_trichotomy c d with h | h | h
          · rw [if_pos h]
            constructor
            · intro hc; cases hc
            · intro hlex
              cases hlex with
              | cons htail => exact absurd h (lt_irrefl _)
              | rel h2 => exact absurd h2 (lt_asymm h)
          · subst h
            rw [if_neg (lt_irrefl c), if_neg (lt_irrefl c)]
            constructor
            · intro hrec; exact List.Lex.cons ((ih ds).mp hrec)
            · intro hlex
              cases hlex with
              | cons htail => exact (ih ds).mpr htail
              | rel h2 => exact absurd h2 (lt_irrefl c)
          · rw [if_neg (lt_asymm h), if_pos h]
            exact ⟨fun _ => List.Lex.rel h, fun _ => rfl⟩

theorem lexTri (xs ys : List Char) :
    List.Lex (· < ·) xs ys ∨ xs = ys ∨ List.Lex (· < ·) ys xs :=
  trichotomous xs ys

theorem lexTrans {xs ys zs : List Char} (h1 : List.Lex (· < ·) xs ys)
    (h2 : List.Lex (· < ·) ys zs) : List.Lex (· < ·) xs zs :=
  IsTrans.trans xs ys zs h1 h2

theorem lexAsymm {xs ys : List Char} (h : List.Lex (· < ·) xs ys) :
    ¬ List.Lex (· < ·) ys xs :=
  asymm h

theorem strLe_trans (a b c : String)
    (h1 : charsCmp a.data b.data ≠ .gt) (h2 : charsCmp b.data c.data ≠ .gt) :
    charsCmp a.data c.data ≠ .gt := by
  intro hc
  have hca := (charsCmp_gt_iff _ _).mp hc
  have h1b : ¬ List.Lex (· < ·) b.data a.data :=
    fun hl => h1 ((charsCmp_gt_iff _ _).mpr hl)
  have h2b : ¬ List.Lex (· < ·) c.data b.data :=
    fun hl => h2 ((charsCmp_gt_iff _ _).mpr hl)
  rcases lexTri a.data b.data with hab | hab | hab
  · exact h2b (lexTrans hca hab)
  · rw [hab] at hca; exact h2b hca
  · exact h1b hab

theorem strLe_total (a b : String) :
    charsCmp a.data b.data ≠ .gt ∨ charsCmp b.data a.data ≠ .gt := by
  by_cases h : charsCmp a.data b.data = .gt
  · right
    intro hc
    exact lexAsymm ((charsCmp_gt_iff _ _).mp h) ((charsCmp_gt_iff _ _).mp hc)
  · exact Or.inl h

theorem strLe_antisymm (a b : String)
    (h1 : charsCmp a.data b.data ≠ .gt) (h2 : charsCmp b.data a.data ≠ .gt) :
    a = b := by
  have h1b : ¬ List.Lex (· < ·) b.data a.data :=
    fun hl => h1 ((charsCmp_gt_iff _ _).mpr hl)
  have h2b : ¬ List.Lex (· < ·) a.data b.data :=
    fun hl => h2 ((charsCmp_gt_iff _ _).mpr hl)
  rcases lexTri a.data b.data with hab | hab | hab
  · exact absurd hab h2b
  · exact String.ext hab
  · exact absurd hab h1b

theorem pyLe_str_iff (a b : String) :
    pyLe (.str a) (.str b) ↔ charsCmp a.data b.data ≠ .gt := by
  unfold pyLe
  have hcmp : pyCmp (.str a) (.str b) = some (charsCmp a.data b.data) := by
    simp [pyCmp]
  rw [hcmp]
  constructor
  · intro h hc; exact h (by rw [hc])
  · intro h hc
    exact h (Option.some_injective _ hc)

theorem sortStrings_eq_of_perm {ss ss' : List String} (hp : ss.Perm ss') :
    ss.insertionSort (fun a b => charsCmp a.data b.data ≠ .gt) =
      ss'.insertionSort (fun a b => charsCmp a.data b.data ≠ .gt) := by
  have hanti : IsAntisymm String (fun a b => charsCmp a.data b.data ≠ .gt) :=
    ⟨strLe_antisymm⟩
  have htot : IsTotal String (fun a b => charsCmp a.data b.data ≠ .gt) :=
    ⟨strLe_total⟩
  have htra : IsTrans String (fun a b => charsCmp a.data b.data ≠ .gt) :=
    ⟨strLe_trans⟩
  refine @List.eq_of_perm_of_sorted _ _ hanti _ _ ?_ ?_ ?_
  · exact (List.perm_insertionSort _ ss).trans
      (hp.trans (List.perm_insertionSort _ ss').symm)
  · exact @List.sorted_insertionSort _ _ _ htot htra ss
  · exact @List.sorted_insertionSort _ _ _ htot htra ss'

theorem map_str_eq_of_all_str : ∀ {ts : List JVal},
    (∀ t ∈ ts, isStr t = true) → ts = (ts.map unStr).map JVal.str := by
  intro ts
  induction ts with
  | nil => intro _; rfl
  | cons t rest ih =>
      intro hall
      have ht := hall t (List.mem_cons_self _ _)
      cases t with
      | str s =>
          simp only [List.map_cons, unStr]
          exact congrArg _ (ih (fun x hx => hall x (List.mem_cons_of_mem _ hx)))
      | null => cases ht
      | bool b => cases ht
      | num n => cases ht
      | arr a => cases ht
      | obj o => cases ht

theorem allComparable_of_strings : ∀ {ts : List JVal},
    (∀ t ∈ ts, isStr t = true) → allComparable ts = true := by
  intro ts
  induction ts with
  | nil => intro _; rfl
  | cons t rest ih =>
      intro hall
      have ht := hall t (List.mem_cons_self _ _)
      unfold allComparable
      rw [Bool.and_eq_true]
      refine ⟨?_, ih (fun x hx => hall x (List.mem_cons_of_mem _ hx))⟩
      rw [List.all_eq_true]
      intro y hy
      have hty := hall y (List.mem_cons_of_mem _ hy)
      cases t with
      | str s =>
          cases y with
          | str s2 => simp [pyCmp]
          | null => cases hty
          | bool b => cases hty
          | num n => cases hty
          | arr a => cases hty
          | obj o => cases hty
      | null => cases ht
      | bool b => cases ht
      | num n => cases ht
      | arr a => cases ht
      | obj o => cases ht

theorem pySorted_eq_of_perm_strings {ts ts' : List JVal} (hp : ts.Perm ts')
    (hstr : ∀ t ∈ ts, isStr t = true) : pySorted ts = pySorted ts' := by
  have hstr' : ∀ t ∈ ts', isStr t = true := fun t ht =>
    hstr t (hp.mem_iff.mpr ht)
  unfold pySorted
  rw [allComparable_of_strings hstr, allComparable_of_strings hstr']
  simp only [if_pos]
  congr 1
  have hmap : ∀ ss : List String,
      (ss.map JVal.str).insertionSort pyLe =
      (ss.insertionSort (fun a b => charsCmp a.data b.data ≠ .gt)).map JVal.str := by
    intro ss
    exact (List.map_insertionSort _ _ JVal.str ss
      (fun a _ b _ => (pyLe_str_iff a b).symm)).symm
  have h1 : ts.insertionSort pyLe =
      ((ts.map unStr).insertionSort
        (fun a b => charsCmp a.data b.data ≠ .gt)).map JVal.str := by
    conv_lhs => rw [map_str_eq_of_all_str hstr]
    exact hmap _
  have h2 : ts'.insertionSort pyLe =
      ((ts'.map unStr).insertionSort
        (fun a b => charsCmp a.data b.data ≠ .gt)).map JVal.str := by
    conv_lhs => rw [map_str_eq_of_all_str hstr']
    exact hmap _
  rw [h1, h2]
  exact congrArg _ (sortStrings_eq_of_perm (hp.map unStr))

end JVal

namespace ValidateSession

open JVal

theorem wordTexts_of_all_obj : ∀ {ws : List JVal},
    (∀ w ∈ ws, isObj w = true) → wordTexts ws = .ok (keptTexts ws) := by
  intro ws
  induction ws with
  | nil => intro _; rfl
  | cons w rest ih =>
      intro hall
      have hw := hall w (List.mem_cons_self _ _)
      cases w with
      | obj wf =>
          have ihr := ih (fun x hx => hall x (List.mem_cons_of_mem _ hx))
          simp only [wordTexts, ihr, keptTexts, List.filterMap_cons]
          by_cases ht : truthy ((dGet wf "text").getD .null) = true
          · simp [ht]
          · simp [ht]
      | null => cases hw
      | bool b => cases hw
      | num n => cases hw
      | str s => cases hw
      | arr a => cases hw

theorem wordTexts_err : ∀ {ws : List JVal},
    (∃ w ∈ ws, isObj w = false) → wordTexts ws = .error "AttributeError" := by
  intro ws
  induction ws with
  | nil => rintro ⟨w, hw, _⟩; cases hw
  | cons w rest ih =>
      rintro ⟨x, hx, hxo⟩
      cases w with
      | obj wf =>
          have hxr : x ∈ rest := by
            rcases List.mem_cons.mp hx with he | hm
            · subst he; cases hxo
            · exact hm
          simp only [wordTexts, ih ⟨x, hxr, hxo⟩]
      | null => rfl
      | bool b => rfl
      | num n => rfl
      | str s => rfl
      | arr a => rfl

/-- C2 (amended): reordering the `words` array never changes
`calculate_hash` provided the truthy `text` values of its object elements
are strings (the intended shape); in general a pair of distinct texts that
compare equal under Python ordering (such as `True` and `1`) makes the
digest depend on the input order, because the sort is stable. -/
theorem claim_C2_word_order_never_affects_digest
    (f f' : List (String × JVal)) (ws ws' : List JVal)
    (hw : dGet f "words" = some (.arr ws))
    (hw' : dGet f' "words" = some (.arr ws'))
    (hperm : ws.Perm ws')
    (hseed : dGet f "seed" = dGet f' "seed")
    (hstage : dGet f "stage" = dGet f' "stage")
    (hks : dGet f "keystrokes" = dGet f' "keystrokes")
    (htexts : ∀ t ∈ keptTexts ws, isStr t = true) :
    calculate_hash (.obj f) = calculate_hash (.obj f') := by
  have hext : extract_deterministic_data (JVal.obj f) =
      extract_deterministic_data (JVal.obj f') := by
    simp only [extract_deterministic_data, hw, hw', hseed, hstage, hks,
      Option.getD_some]
    by_cases hobj : ∀ w ∈ ws, isObj w = true
    · have hobj' : ∀ w ∈ ws', isObj w = true := fun w h2 =>
        hobj w (hperm.mem_iff.mpr h2)
      have hkp : (keptTexts ws).Perm (keptTexts ws') := hperm.filterMap _
      simp only [wordTexts_of_all_obj hobj, wordTexts_of_all_obj hobj',
        pySorted_eq_of_perm_strings hkp htexts]
    · have hex : ∃ w ∈ ws, isObj w = false := by
        by_contra hc
        push_neg at hc
        refine hobj (fun w hw2 => ?_)
        cases hio : isObj w
        · exact absurd hio (hc w hw2)
        · rfl
      have hex' : ∃ w ∈ ws', isObj w = false := by
        obtain ⟨x, hx, hxo⟩ := hex
        exact ⟨x, hperm.mem_iff.mp hx, hxo⟩
      simp only [wordTexts_err hex, wordTexts_err hex']
  simp only [calculate_hash, hext]

end ValidateSession

namespace ValidateSession

open JVal

set_option maxRecDepth 8000 in
/-- C2 fails as stated for arbitrary raw sessions: the texts `True` and
`1` compare as equal under Python ordering, so the stable sort keeps them
in input order and the two orders serialize (and hash) differently, as in
CPython. -/
theorem claim_C2_counterexample :
    ([JVal.obj [("text", JVal.bool true)], JVal.obj [("text", JVal.num 1)]].Perm
      [JVal.obj [("text", JVal.num 1)], JVal.obj [("text", JVal.bool true)]]) ∧
    calculate_hash
        (.obj [("words", .arr [.obj [("text", .bool true)],
          .obj [("text", .num 1)]])]) ≠
      calculate_hash
        (.obj [("words", .arr [.obj [("text", .num 1)],
          .obj [("text", .bool true)]])]) :=
  ⟨List.Perm.swap _ _ _, by decide⟩

/-- Witness for the amended C2: permuting a two-word session with string
texts leaves the digest unchanged. -/
theorem claim_C2_witness :
    (dGet [("seed", JVal.num 7),
      ("words", JVal.arr [JVal.obj [("text", JVal.str "b")],
        JVal.obj [("text", JVal.str "a")]])] "words" =
      some (.arr [JVal.obj [("text", JVal.str "b")],
        JVal.obj [("text", JVal.str "a")]])) ∧
    ([JVal.obj [("text", JVal.str "b")], JVal.obj [("text", JVal.str "a")]].Perm
      [JVal.obj [("text", JVal.str "a")], JVal.obj [("text", JVal.str "b")]]) ∧
    (∀ t ∈ keptTexts [JVal.obj [("text", JVal.str "b")],
        JVal.obj [("text", JVal.str "a")]], isStr t = true) ∧
    calculate_hash
        (.obj [("seed", .num 7), ("words", .arr [.obj [("text", .str "b")],
          .obj [("text", .str "a")]])]) =
      calculate_hash
        (.obj [("seed", .num 7), ("words", .arr [.obj [("text", .str "a")],
          .obj [("text", .str "b")]])]) :=
  ⟨rfl, List.Perm.swap _ _ _, by decide,
    claim_C2_word_order_never_affects_digest _ _ _ _ rfl rfl
      (List.Perm.swap _ _ _) rfl rfl rfl (by decide)⟩

end ValidateSession

namespace ValidateSession

open JVal

theorem ksProj_ok_of_all_obj : ∀ {ks : List JVal},
    (∀ k ∈ ks, isObj k = true) → ∃ l, ksProj ks = .ok l := by
  intro ks
  induction ks with
  | nil => intro _; exact ⟨[], rfl⟩
  | cons k rest ih =>
      intro hall
      have hk := hall k (List.mem_cons_self _ _)
      cases k with
      | obj kf =>
          obtain ⟨l, hl⟩ := ih (fun x hx => hall x (List.mem_cons_of_mem _ hx))
          refine ⟨JVal.obj [("key", (dGet kf "key").getD .null),
            ("timestamp", (dGet kf "timestamp").getD .null),
            ("wordIndex", (dGet kf "wordIndex").getD .null)] :: l, ?_⟩
          simp only [ksProj, hl]
      | null => cases hk
      | bool b => cases hk
      | num n => cases hk
      | str s => cases hk
      | arr a => cases hk

theorem extract_ok_of_ok_fields (fs : List (String × JVal))
    (h1 : wordsOk fs = true) (h2 : ksOk fs = true) :
    ∃ d, extract_deterministic_data (.obj fs) = .ok d := by
  unfold wordsOk at h1
  unfold ksOk at h2
  simp only [extract_deterministic_data]
  cases hwv : (dGet fs "words").getD (.arr []) with
  | arr ws =>
      rw [hwv] at h1
      rw [Bool.and_eq_true, List.all_eq_true] at h1
      have hobj : ∀ w ∈ ws, isObj w = true := h1.1
      have hcmp : allComparable (keptTexts ws) = true := h1.2
      simp only [wordTexts_of_all_obj hobj, pySorted, hcmp, if_pos]
      cases hkv : (dGet fs "keystrokes").getD (.arr []) with
      | arr ks =>
          rw [hkv] at h2
          rw [List.all_eq_true] at h2
          obtain ⟨l, hl⟩ := ksProj_ok_of_all_obj h2
          simp only [hl]
          exact ⟨_, rfl⟩
      | null => exact ⟨_, rfl⟩
      | bool b => exact ⟨_, rfl⟩
      | num n => exact ⟨_, rfl⟩
      | str s => exact ⟨_, rfl⟩
      | obj o => exact ⟨_, rfl⟩
  | null =>
      cases hkv : (dGet fs "keystrokes").getD (.arr []) with
      | arr ks =>
          rw [hkv] at h2
          rw [List.all_eq_true] at h2
          obtain ⟨l, hl⟩ := ksProj_ok_of_all_obj h2
          simp only [hl]
          exact ⟨_, rfl⟩
      | null => exact ⟨_, rfl⟩
      | bool b => exact ⟨_, rfl⟩
      | num n => exact ⟨_, rfl⟩
      | str s => exact ⟨_, rfl⟩
      | obj o => exact ⟨_, rfl⟩
  | bool b =>
      cases hkv : (dGet fs "keystrokes").getD (.arr []) with
      | arr ks =>
          rw [hkv] at h2
          rw [List.all_eq_true] at h2
          obtain ⟨l, hl⟩ := ksProj_ok_of_all_obj h2
          simp only [hl]
          exact ⟨_, rfl⟩
      | null => exact ⟨_, rfl⟩
      | bool b2 => exact ⟨_, rfl⟩
      | num n => exact ⟨_, rfl⟩
      | str s => exact ⟨_, rfl⟩
      | obj o => exact ⟨_, rfl⟩
  | num n =>
      cases hkv : (dGet fs "keystrokes").getD (.arr []) with
      | arr ks =>
          rw [hkv] at h2
          rw [List.all_eq_true] at h2
          obtain ⟨l, hl⟩ := ksProj_ok_of_all_obj h2
          simp only [hl]
          exact ⟨_, rfl⟩
      | null => exact ⟨_, rfl⟩
      | bool b => exact ⟨_, rfl⟩
      | num n2 => exact ⟨_, rfl⟩
      | str s => exact ⟨_, rfl⟩
      | obj o => exact ⟨_, rfl⟩
  | str s =>
      cases hkv : (dGet fs "keystrokes").getD (.arr []) with
      | arr ks =>
          rw [hkv] at h2
          rw [List.all_eq_true] at h2
          obtain ⟨l, hl⟩ := ksProj_ok_of_all_obj h2
          simp only [hl]
          exact ⟨_, rfl⟩
      | null => exact ⟨_, rfl⟩
      | bool b => exact ⟨_, rfl⟩
      | num n => exact ⟨_, rfl⟩
      | str s2 => exact ⟨_, rfl⟩
      | obj o => exact ⟨_, rfl⟩
  | obj o =>
      cases hkv : (dGet fs "keystrokes").getD (.arr []) with
      | arr ks =>
          rw [hkv] at h2
          rw [List.all_eq_true] at h2
          obtain ⟨l, hl⟩ := ksProj_ok_of_all_obj h2
          simp only [hl]
          exact ⟨_, rfl⟩
      | null => exact ⟨_, rfl⟩
      | bool b => exact ⟨_, rfl⟩
      | num n => exact ⟨_, rfl⟩
      | str s => exact ⟨_, rfl⟩
      | obj o2 => exact ⟨_, rfl⟩

/-- C9 (amended): the canonicalizer degrades to empty sequences on missing
or non-list fields and returns a digest, provided the input is an object
whose `words`/`keystrokes` lists (when lists) contain only objects with
mutually comparable truthy texts; a non-object input, a non-object list
element, or an unsortable pair of texts raises an exception instead of
degrading. -/
theorem claim_C9_canonicalizer_total_on_benign_shapes
    (fs : List (String × JVal)) (h1 : wordsOk fs = true) (h2 : ksOk fs = true) :
    (calculate_hash (.obj fs)).isOk = true := by
  obtain ⟨d, hd⟩ := extract_ok_of_ok_fields fs h1 h2
  simp [calculate_hash, hd, Except.isOk, Except.toBool]

/-- C9 fails as stated: a wrongly-typed `words` element (a bare string
instead of an object) raises `AttributeError` instead of degrading. -/
theorem claim_C9_counterexample :
    calculate_hash (.obj [("words", .arr [.str "x"])]) =
      .error "AttributeError" := rfl

/-- Witness for the amended C9 on a benign session with a degraded
(missing) `stage` and a non-list `keystrokes`. -/
theorem claim_C9_witness :
    (wordsOk [("seed", JVal.num 1),
      ("words", JVal.arr [JVal.obj [("text", JVal.str "a")]]),
      ("keystrokes", JVal.num 5)] = true) ∧
    (ksOk [("seed", JVal.num 1),
      ("words", JVal.arr [JVal.obj [("text", JVal.str "a")]]),
      ("keystrokes", JVal.num 5)] = true) ∧
    ((calculate_hash (.obj [("seed", JVal.num 1),
      ("words", JVal.arr [JVal.obj [("text", JVal.str "a")]]),
      ("keystrokes", JVal.num 5)])).isOk = true) :=
  ⟨by decide, by decide,
    claim_C9_canonicalizer_total_on_benign_shapes _ (by decide) (by decide)⟩

end ValidateSession

namespace ValidateSession

open JVal

set_option maxRecDepth 8000 in
/-- C7 is the intended rule, but the code checks `initials.isupper()`
rather than all-letters: Python `isupper` ignores uncased characters, so a
3-character value with a digit, such as "A1B", adds no violation.  This
fully valid submission with initials "A1B" (its `sessionHash` is the
digest of its own session data) is accepted with an empty violation
list. -/
theorem claim_C7_initials_digit_accepted :
    (dGet [("sessionData", JVal.obj [("seed", JVal.num 1), ("stage", JVal.num 1), ("words", JVal.arr [JVal.obj [("text", JVal.str "hi")]]), ("keystrokes", JVal.arr [JVal.obj [("key", JVal.str "h"), ("timestamp", JVal.num 1), ("wordIndex", JVal.num 0)]])]), ("sessionHash", JVal.str "bac9b241a36cddae0156fb8278c85dde7a54d8d351598cd17c01005ceebb0de2"), ("userId", JVal.str "a0b1c2d3-e4f5-4a6b-8c7d-0123456789ab"), ("initials", JVal.str "A1B")] "initials" = some (.str "A1B")) ∧
    validate_submission [("sessionData", JVal.obj [("seed", JVal.num 1), ("stage", JVal.num 1), ("words", JVal.arr [JVal.obj [("text", JVal.str "hi")]]), ("keystrokes", JVal.arr [JVal.obj [("key", JVal.str "h"), ("timestamp", JVal.num 1), ("wordIndex", JVal.num 0)]])]), ("sessionHash", JVal.str "bac9b241a36cddae0156fb8278c85dde7a54d8d351598cd17c01005ceebb0de2"), ("userId", JVal.str "a0b1c2d3-e4f5-4a6b-8c7d-0123456789ab"), ("initials", JVal.str "A1B")] = .ok (true, []) :=
  ⟨rfl, by rfl⟩

end ValidateSession
